import Mathlib

/-!
STV-Logger: a shallow embedding of `src/Logger.h` and `src/Logger.cpp`, and the properties
of the specification settled on it.

* Text is `List Char`. A `const char*` is the list of the bytes of its array from the
  pointer onwards, the terminating NUL included: reading at `[]` is a read past the
  array, `ptr + 1` is the tail.
* The `printf` family of the C library is not part of the repository. `cprintf` models it
  for the conversions the repository's own format strings use; the specifiers that come
  from a caller's template go to a parameter `vsn`, of which `cprintf` is one instance.
* The clock reading and the text of the calling thread's identity are read from `Env`.
* The process-wide `LogManager` singleton is passed explicitly.
-/

set_option autoImplicit false

namespace STVLogger

/-! ## Characters and C strings -/

/-- The terminating character of a C string. -/
def NUL : Char := Char.ofNat 0

/-- The line feed. -/
def LF : Char := Char.ofNat 10

/-- The double quote. -/
def DQUOTE : Char := Char.ofNat 34

/-- What can go wrong where C++ leaves the behaviour open or throws. -/
inductive Fault
  | outOfBounds   -- a read past the end of the template's array
  | formatError   -- vsnprintf/snprintf returned a negative size
  | outOfRange    -- std::out_of_range left getThreadId uncaught
  | outOfFuel     -- the recursion budget of the model ran out
  deriving DecidableEq, Repr

/-- The C string a `std::string` hands out through `c_str()`: it ends at the first NUL. -/
def c_str (s : List Char) : List Char := s.takeWhile (fun c => c ≠ NUL)

/-- `std::string(const char*)`: the characters before the first NUL of the array. -/
def cstring : List Char → Except Fault (List Char)
  | [] => .error .outOfBounds
  | c :: tl =>
    if c = NUL then .ok []
    else match cstring tl with
      | .error e => .error e
      | .ok s => .ok (c :: s)

/-! ## The C library's formatted output (model) -/

/-- A value as it travels through a C ellipsis. -/
inductive CVal
  | int (n : Int)         -- a signed integer
  | uint (n : Nat)        -- an unsigned integer
  | cstr (s : List Char)  -- a `const char*` to the NUL-terminated text `s`
  | dbl (bits : Nat)      -- a double
  | ptr (addr : Nat)      -- any other pointer
  deriving DecidableEq, Repr

/-- Flags, minimum field width and precision of one conversion specification. -/
structure ConvSpec where
  minus : Bool := false
  zero : Bool := false
  plus : Bool := false
  space : Bool := false
  width : Nat := 0
  prec : Option Nat := none
  deriving DecidableEq, Repr

/-- Where the reader of a format string stands. -/
inductive Stage
  | lit | flags | width | prec | len
  deriving DecidableEq, Repr

/-- One digit, `0-9` then `a-z` or `A-Z`. -/
def digitChar (upper : Bool) (d : Nat) : Char :=
  if d < 10 then Char.ofNat (48 + d) else Char.ofNat ((if upper then 55 else 87) + d)

/-- Digits of `n` in `base`, most significant first, in front of `acc`. -/
def natDigitsAux (base : Nat) (upper : Bool) : Nat → Nat → List Char → List Char
  | 0, _, acc => acc
  | fuel + 1, n, acc =>
    let acc1 := digitChar upper (n % base) :: acc
    if n / base = 0 then acc1 else natDigitsAux base upper fuel (n / base) acc1

/-- Digits of `n` in `base`, at least one. -/
def natDigits (base : Nat) (upper : Bool) (n : Nat) : List Char :=
  natDigitsAux base upper (n + 1) n []

/-- Pad `body` (with its `sign` in front) to the field width. -/
def padField (sp : ConvSpec) (zeroOk : Bool) (sign body : List Char) : List Char :=
  let fill := sp.width - (sign.length + body.length)
  if sp.minus then sign ++ body ++ List.replicate fill ' '
  else if sp.zero && zeroOk then sign ++ List.replicate fill '0' ++ body
  else List.replicate fill ' ' ++ sign ++ body

/-- An unsigned integer conversion: the precision is the minimum number of digits. -/
def fmtUnsigned (sp : ConvSpec) (base : Nat) (upper : Bool) (sign : List Char) (n : Nat) :
    List Char :=
  let ds := if n = 0 ∧ sp.prec = some 0 then [] else natDigits base upper n
  let body := List.replicate (sp.prec.getD 1 - ds.length) '0' ++ ds
  padField sp sp.prec.isNone sign body

/-- Conversions `d` and `i`. -/
def fmtSigned (sp : ConvSpec) (n : Int) : List Char :=
  let sign := if n < 0 then ['-'] else if sp.plus then ['+'] else if sp.space then [' '] else []
  fmtUnsigned sp 10 false sign n.natAbs

/-- Conversion `s`: the precision is the maximum number of characters. -/
def fmtString (sp : ConvSpec) (s : List Char) : List Char :=
  let body := match sp.prec with
    | some p => s.take p
    | none => s
  padField sp false [] body

/-- The character ends a conversion specification: render the next argument. `none` is a
conversion the model does not cover or an argument of the wrong kind. -/
def convert (sp : ConvSpec) (c : Char) (args : List CVal) : Option (List Char × List CVal) :=
  if c = '%' then some (['%'], args)
  else match args with
    | [] => none
    | .int n :: rest =>
      if c = 'd' ∨ c = 'i' then some (fmtSigned sp n, rest)
      else if c = 'c' then some (padField sp false [] [Char.ofNat (n % 256).toNat], rest)
      else none
    | .uint n :: rest =>
      if c = 'u' then some (fmtUnsigned sp 10 false [] n, rest)
      else if c = 'x' then some (fmtUnsigned sp 16 false [] n, rest)
      else if c = 'X' then some (fmtUnsigned sp 16 true [] n, rest)
      else if c = 'o' then some (fmtUnsigned sp 8 false [] n, rest)
      else none
    | .cstr s :: rest => if c = 's' then some (fmtString sp s, rest) else none
    | _ :: _ => none

/-- Value of a decimal digit character. -/
def digitVal (c : Char) : Option Nat :=
  if '0' ≤ c ∧ c ≤ '9' then some (c.toNat - 48) else none

/-- A length modifier (`hh h l ll j z t L`). -/
def isLengthMod (c : Char) : Bool :=
  c = 'h' || c = 'l' || c = 'j' || c = 'z' || c = 't' || c = 'L'

/-- Read one character inside a conversion specification; `none` when the character is
not a flag, a digit of the width or precision, the point or a length modifier, that is
when it has to be the conversion character. -/
def advance : Stage → ConvSpec → Char → Option (Stage × ConvSpec)
  | .lit, _, _ => none
  | .flags, sp, c =>
    if c = '-' then some (.flags, { sp with minus := true })
    else if c = '0' then some (.flags, { sp with zero := true })
    else if c = '+' then some (.flags, { sp with plus := true })
    else if c = ' ' then some (.flags, { sp with space := true })
    else if c = '.' then some (.prec, { sp with prec := some 0 })
    else if isLengthMod c then some (.len, sp)
    else match digitVal c with
      | some d => some (.width, { sp with width := d })
      | none => none
  | .width, sp, c =>
    if c = '.' then some (.prec, { sp with prec := some 0 })
    else if isLengthMod c then some (.len, sp)
    else match digitVal c with
      | some d => some (.width, { sp with width := sp.width * 10 + d })
      | none => none
  | .prec, sp, c =>
    if isLengthMod c then some (.len, sp)
    else match digitVal c with
      | some d => some (.prec, { sp with prec := some (sp.prec.getD 0 * 10 + d) })
      | none => none
  | .len, sp, c => if isLengthMod c then some (.len, sp) else none

/-- The output of `printf` for a format and its arguments, read left to right. `none`
stands for a negative return value or undefined behaviour: a format that ends inside a
specification, a missing argument, a conversion outside the model. -/
def vformat : Stage → ConvSpec → List Char → List CVal → Option (List Char)
  | .lit, _, [], _ => some []
  | _, _, [], _ => none
  | .lit, sp, c :: fmt, args =>
    if c = '%' then vformat .flags {} fmt args
    else (vformat .lit sp fmt args).map (fun out => c :: out)
  | st, sp, c :: fmt, args =>
    match advance st sp c with
    | some (st1, sp1) => vformat st1 sp1 fmt args
    | none =>
      match convert sp c args with
      | none => none
      | some (out, args1) => (vformat .lit {} fmt args1).map (fun tl => out ++ tl)

/-- The text `snprintf(buffer, size, fmt, args...)` leaves in a buffer that is large
enough. -/
def cprintf (fmt : List Char) (args : List CVal) : Option (List Char) :=
  vformat .lit {} fmt args

/-! ## `LogLevel` and the environment -/

/-- The enumeration `LogLevel` of `Logger.h`. -/
inductive LogLevel
  | LL_NONE | LL_ERROR | LL_WARNING | LL_INFO | LL_DEBUG
  deriving DecidableEq, Repr

/-- The numeric value of each enumerator. -/
def LogLevel.toInt : LogLevel → Int
  | .LL_NONE => -1
  | .LL_ERROR => 0
  | .LL_WARNING => 1
  | .LL_INFO => 2
  | .LL_DEBUG => 3

/-- The fields of `struct tm` that `currentLogDate` reads. -/
structure Tm where
  tm_year : Int
  tm_mon : Int
  tm_mday : Int
  tm_hour : Int
  tm_min : Int
  tm_sec : Int
  deriving DecidableEq, Repr

/-- What the code reads from outside: the UTC clock (`gmtime` of `time(NULL)`), the text
`ss << std::this_thread::get_id()` writes, and the width of `unsigned long int`. -/
structure Env where
  tm : Tm
  thread_text : List Char
  ulong_bits : Nat
  deriving DecidableEq, Repr

/-! ## `LogManager` -/

/-- The state of the singleton and of its two sinks: the threshold, the bytes written to
`m_logFile` (`none` while no file is open) and the bytes written to `cout`. -/
structure LogManager where
  m_logLevel : LogLevel
  m_logFile : Option (List Char)
  console : List Char
  deriving DecidableEq, Repr

namespace LogManager

/-- The constructor `LogManager::LogManager()`. -/
def init : LogManager :=
  { m_logLevel := .LL_DEBUG, m_logFile := none, console := [] }

/-- `LogManager::setLevel`. -/
def setLevel (self : LogManager) (level : LogLevel) : LogManager :=
  { self with m_logLevel := level }

/-- `LogManager::isLoggable`. -/
def isLoggable (self : LogManager) (level : LogLevel) : Bool :=
  decide (level.toInt ≤ self.m_logLevel.toInt)

/-- `LogManager::close`. -/
def close (self : LogManager) : LogManager :=
  if self.m_logFile.isSome then { self with m_logFile := none } else self

end LogManager

/-- The characters `isspace` accepts. -/
def isSpaceChar (c : Char) : Bool :=
  c = ' ' || (9 ≤ c.toNat && c.toNat ≤ 13)

/-- Value of a run of decimal digits read after `acc`, and the number of digits read. -/
def readDigits : List Char → Nat → Nat → Nat × Nat
  | [], acc, k => (acc, k)
  | c :: tl, acc, k =>
    match digitVal c with
    | some d => readDigits tl (acc * 10 + d) (k + 1)
    | none => (acc, k)

/-- The two exceptions of `std::stoull`. -/
inductive StoullError
  | invalid_argument | out_of_range
  deriving DecidableEq, Repr

/-- `std::stoull(s)` in base 10: leading white space, an optional sign, then digits. -/
def stoull (s : List Char) : Except StoullError Nat :=
  let s1 := s.dropWhile isSpaceChar
  let neg := s1.head? = some '-'
  let s2 := if s1.head? = some '-' ∨ s1.head? = some '+' then s1.drop 1 else s1
  let r := readDigits s2 0 0
  if r.2 = 0 then .error .invalid_argument
  else if 2 ^ 64 ≤ r.1 then .error .out_of_range
  else .ok (if neg then (2 ^ 64 - r.1) % 2 ^ 64 else r.1)

namespace LogManager

/-- `LogManager::getThreadId` on the text of the identity: only `std::invalid_argument`
is caught. -/
def getThreadId (sid : List Char) : Except Fault Nat :=
  match stoull sid with
  | .ok v => .ok v
  | .error .invalid_argument => .ok (2 ^ 64 - 1)
  | .error .out_of_range => .error .outOfRange

/-- `LogManager::currentLogDate`. -/
def currentLogDate (env : Env) (format : List Char) : Except Fault (List Char) :=
  let year := env.tm.tm_year + 1900
  let month := env.tm.tm_mon + 1
  match cprintf (c_str format) [.int year, .int month, .int env.tm.tm_mday,
      .int env.tm.tm_hour, .int env.tm.tm_min, .int env.tm.tm_sec] with
  | none => .error .formatError
  | some buffer => .ok (c_str buffer)

/-- The format of a log line in `writeLog`. -/
def logFormat : List Char := "[%s] [%-8.8s] [%8.8llX] [%-8.8s] %s".toList ++ [LF]

/-- The format `writeLog` gives to `currentLogDate`. -/
def dateFormat : List Char := "%4.4d/%2.2d/%2.2d %2.2d:%2.2d:%2.2d".toList

/-- The local `strLevel` of `writeLog`. -/
def strLevel (level : LogLevel) : List Char :=
  let s0 := "DEBUG".toList
  let s1 := if level = .LL_ERROR then "ERROR".toList else s0
  let s2 := if level = .LL_WARNING then "WARNING".toList else s1
  if level = .LL_INFO then "INFO".toList else s2

/-- `LogManager::writeLog`: the line goes to `cout` and, if a file is open, to the file. -/
def writeLog (env : Env) (self : LogManager) (name : List Char) (level : LogLevel)
    (message : List Char) : Except Fault LogManager :=
  if !self.isLoggable level then .ok self
  else
    match currentLogDate env dateFormat with
    | .error e => .error e
    | .ok date =>
      match getThreadId env.thread_text with
      | .error e => .error e
      | .ok id =>
        let threadId := id % 2 ^ env.ulong_bits % 2 ^ 64
        match cprintf logFormat [.cstr (c_str date), .cstr (c_str name), .uint threadId,
            .cstr (c_str (strLevel level)), .cstr (c_str message)] with
        | none => .error .formatError
        | some logBuffer =>
          .ok { self with
                console := self.console ++ logBuffer
                m_logFile := self.m_logFile.map (fun f => f ++ logBuffer) }

end LogManager

/-! ## `Logger` -/

/-- One argument of a logging call, by the static type the template code sees. -/
inductive Arg
  | bool (b : Bool)               -- `bool`
  | string (s : List Char)        -- `std::string`
  | thread_id (text : List Char)  -- `std::thread::id`, by the text `operator<<` writes
  | prim (v : CVal)               -- every other type: passed to the ellipsis as it is
  deriving DecidableEq, Repr

/-- The C library function behind `Logger::format`: format, arguments, and the output or
`none` for a negative return value. -/
abbrev Vsnprintf := List Char → List CVal → Option (List Char)

/-- The class `Logger`: a name. -/
structure Logger where
  m_name : List Char
  deriving DecidableEq, Repr

/-- What a call returns next to the state of the manager it leaves. -/
abbrev Rendered := Except Fault (List Char × LogManager)

/-- The characters that end the inner loop of `recurseLog`. -/
def isConversion (c : Char) : Bool :=
  c = 'd' || c = 'i' || c = 'u' || c = 'o' || c = 'x' || c = 'X' ||
  c = 'f' || c = 'F' || c = 'e' || c = 'E' || c = 'g' || c = 'G' ||
  c = 'a' || c = 'A' || c = 'c' || c = 's' || c = 'p' || c = 'n' ||
  c = '%'

namespace Logger

/-- `Logger::format(const char* fmt, ...)`: the buffer `vsnprintf` fills, read back as a
C string. -/
def format (vsn : Vsnprintf) (fmt : List Char) (values : List CVal) :
    Except Fault (List Char) :=
  match vsn fmt values with
  | none => .error .formatError
  | some buffer => .ok (c_str buffer)

/-- The call `this->format(fmt.c_str(), firstValue)` of `recurseLog`: the `if constexpr`
on `bool` and the overloads for `std::string&` and `std::thread::id&`. -/
def formatValue (vsn : Vsnprintf) (fmt : List Char) : Arg → Except Fault (List Char)
  | .bool b => format vsn fmt [.cstr (if b then "true".toList else "false".toList)]
  | .string value => format vsn fmt [.cstr (c_str value)]
  | .thread_id value =>
    match LogManager.getThreadId value with
    | .error e => .error e
    | .ok id => format vsn fmt [.uint id]
  | .prim v => format vsn fmt [v]

/-- The inner loop `for (;; ptr++)` of `recurseLog`, from `ptr` with `fmt` collected so
far: the specifier, whether the NUL was met, and `ptr` where the loop was left. -/
def scanSpecifier : List Char → List Char → Except Fault (List Char × Bool × List Char)
  | [], _ => .error .outOfBounds
  | c :: tl, fmt =>
    if c = NUL then .ok (fmt, true, c :: tl)
    else if isConversion c then .ok (fmt ++ [c], false, c :: tl)
    else scanSpecifier tl (fmt ++ [c])

/-- The text of the error `recurseLog` logs at a specifier cut by the end of the
template. -/
def invalidSpecifier (fmt input_format : List Char) : List Char :=
  "invalid format specifier: ".toList ++ fmt ++ " for format: ".toList ++ [DQUOTE] ++
    c_str input_format ++ [DQUOTE]

/-- The outer loop of the variadic `recurseLog` from `format` on; `recur` is `recurseLog`
itself, called on `ptr + 1`. -/
def recurseLogLoop (vsn : Vsnprintf) (env : Env) (self : Logger)
    (recur : List Char → List Arg → LogManager → Rendered)
    (input_format : List Char) (firstValue : Arg) (rest : List Arg) :
    List Char → LogManager → Rendered
  | [], _ => .error .outOfBounds
  | c :: tl, mgr =>
    if c = NUL then .ok ([], mgr)
    else if c = '%' then
      match scanSpecifier tl ['%'] with
      | .error e => .error e
      | .ok (fmt, ended, ptr) =>
        match (if ended then
            mgr.writeLog env self.m_name .LL_ERROR (invalidSpecifier fmt input_format)
          else .ok mgr) with
        | .error e => .error e
        | .ok mgr1 =>
          if fmt = ['%', '%'] then
            match recur (ptr.drop 1) (firstValue :: rest) mgr1 with
            | .error e => .error e
            | .ok (r, mgr2) => .ok ('%' :: r, mgr2)
          else
            match formatValue vsn fmt firstValue with
            | .error e => .error e
            | .ok s =>
              match recur (ptr.drop 1) rest mgr1 with
              | .error e => .error e
              | .ok (r, mgr2) => .ok (s ++ r, mgr2)
    else
      match recurseLogLoop vsn env self recur input_format firstValue rest tl mgr with
      | .error e => .error e
      | .ok (r, mgr1) => .ok (c :: r, mgr1)

/-- Both overloads of `recurseLog` with a budget of nested calls: without arguments the
terminal overload `return format;`, else the variadic one. -/
def recurseLogFuel (vsn : Vsnprintf) (env : Env) (self : Logger) :
    Nat → List Char → List Arg → LogManager → Rendered
  | 0, _, _, _ => .error .outOfFuel
  | _ + 1, format, [], mgr =>
    match cstring format with
    | .error e => .error e
    | .ok s => .ok (s, mgr)
  | fuel + 1, input_format, firstValue :: rest, mgr =>
    recurseLogLoop vsn env self (recurseLogFuel vsn env self fuel) input_format firstValue rest
      input_format mgr

/-- `Logger::recurseLog`: every nested call is on a shorter array, so the length of the
array bounds the depth. -/
def recurseLog (vsn : Vsnprintf) (env : Env) (self : Logger) (format : List Char)
    (args : List Arg) (mgr : LogManager) : Rendered :=
  recurseLogFuel vsn env self (format.length + 1) format args mgr

/-- `Logger::log`: the overload of `Logger.cpp` without arguments, the variadic one of
`Logger.h` with them. -/
def log (vsn : Vsnprintf) (env : Env) (self : Logger) (level : LogLevel) (fmt : List Char)
    (args : List Arg) (mgr : LogManager) : Except Fault LogManager :=
  if !mgr.isLoggable level then .ok mgr
  else match args with
    | [] =>
      match cstring fmt with
      | .error e => .error e
      | .ok f =>
        match format vsn f [] with
        | .error e => .error e
        | .ok r => mgr.writeLog env self.m_name level r
    | _ :: _ =>
      match recurseLog vsn env self fmt args mgr with
      | .error e => .error e
      | .ok (r, mgr1) => mgr1.writeLog env self.m_name level r

/-- `Logger::debug(const char* format, ...)`. -/
def debug (vsn : Vsnprintf) (env : Env) (self : Logger) (fmt : List Char) (args : List Arg)
    (mgr : LogManager) : Except Fault LogManager :=
  log vsn env self .LL_DEBUG fmt args mgr

/-- `Logger::warn`. -/
def warn (vsn : Vsnprintf) (env : Env) (self : Logger) (fmt : List Char) (args : List Arg)
    (mgr : LogManager) : Except Fault LogManager :=
  log vsn env self .LL_WARNING fmt args mgr

/-- `Logger::info`. -/
def info (vsn : Vsnprintf) (env : Env) (self : Logger) (fmt : List Char) (args : List Arg)
    (mgr : LogManager) : Except Fault LogManager :=
  log vsn env self .LL_INFO fmt args mgr

/-- `Logger::error`. -/
def error (vsn : Vsnprintf) (env : Env) (self : Logger) (fmt : List Char) (args : List Arg)
    (mgr : LogManager) : Except Fault LogManager :=
  log vsn env self .LL_ERROR fmt args mgr

/-- `Logger::debug(const char* file, int line, const char* format, ...)`, the overload
behind the macro `verbose`: no test of the level before `recurseLog`. -/
def verbose (vsn : Vsnprintf) (env : Env) (self : Logger) (file : List Char) (line : Int)
    (fmt : List Char) (firstValue : Arg) (rest : List Arg) (mgr : LogManager) :
    Except Fault LogManager :=
  match cstring file with
  | .error e => .error e
  | .ok f =>
    match recurseLog vsn env self fmt (firstValue :: rest) mgr with
    | .error e => .error e
    | .ok (r, mgr1) =>
      mgr1.writeLog env self.m_name .LL_DEBUG (f ++ [':'] ++ fmtSigned {} line ++ [' '] ++ r)

end Logger

/-- `LogManager::getLogger`. -/
def LogManager.getLogger (name : List Char) : Logger := { m_name := name }

/-- A string literal as the array the compiler lays out: its characters and a NUL. -/
def lit (s : String) : List Char := s.toList ++ [NUL]

/-! ## Templates, as the claims describe them -/

/-- Put text in front of what a call returns. -/
def prepend (p : List Char) : Rendered → Rendered
  | .error e => .error e
  | .ok (r, m) => .ok (p ++ r, m)

/-- A character of literal text: neither the NUL nor a percent sign. -/
def isLiteral (c : Char) : Bool := c != NUL && c != '%'

/-- A character that may stand between the percent sign and the conversion character. -/
def isFlagChar (c : Char) : Bool := c != NUL && !isConversion c

/-- A specifier `%` `flags` `conv` and the literal text that follows it. -/
structure Segment where
  flags : List Char
  conv : Char
  text : List Char
  deriving DecidableEq, Repr

/-- The specifier of a segment as it stands in the template. -/
def Segment.spec (sg : Segment) : List Char := '%' :: sg.flags ++ [sg.conv]

/-- A terminated specifier other than `%%`, followed by text without a percent sign. -/
def Segment.wellFormed (sg : Segment) : Bool :=
  sg.flags.all isFlagChar && isConversion sg.conv && (sg.spec != ['%', '%']) &&
    sg.text.all isLiteral

/-- The template text `s1 L1 ... sn Ln`. -/
def sourceOf : List Segment → List Char
  | [] => []
  | sg :: segs => sg.spec ++ sg.text ++ sourceOf segs

/-- The text `render(s1,a1) L1 ... render(sn,an) Ln`, each specifier rendered with the
argument at its position by the single-value renderer `formatValue`. -/
def renderAll (vsn : Vsnprintf) : List Segment → List Arg → Except Fault (List Char)
  | sg :: segs, a :: args =>
    match Logger.formatValue vsn sg.spec a with
    | .error e => .error e
    | .ok r =>
      match renderAll vsn segs args with
      | .error e => .error e
      | .ok rs => .ok (r ++ sg.text ++ rs)
  | _, _ => .ok []

/-- A clock reading, a thread identity and a 64-bit `unsigned long` for the examples. -/
def sampleEnv : Env :=
  { tm := { tm_year := 124, tm_mon := 2, tm_mday := 5, tm_hour := 7, tm_min := 8, tm_sec := 9 }
    thread_text := "140737".toList
    ulong_bits := 64 }

/-- The logger of `main.cpp`. -/
def sampleLogger : Logger := LogManager.getLogger "MyClass".toList

/-- A boolean argument replaced by the C string the `if constexpr` of `recurseLog` passes
on, every other argument as it is. -/
def boolAsText : Arg → Arg
  | .bool b => .prim (.cstr (if b then "true".toList else "false".toList))
  | a => a

/-- A piece of a template made of literal characters and `%%` sequences. -/
inductive Piece
  | text (c : Char)
  | percent
  deriving DecidableEq, Repr

/-- A piece of literal text is neither the NUL nor a percent sign. -/
def Piece.wellFormed : Piece → Bool
  | .text c => isLiteral c
  | .percent => true

/-- The piece as the template writes it. -/
def Piece.source : Piece → List Char
  | .text c => [c]
  | .percent => ['%', '%']

/-- The piece in the message: a `%%` is one percent sign. -/
def Piece.output : Piece → Char
  | .text c => c
  | .percent => '%'

/-- The template text of a list of pieces. -/
def plainSource : List Piece → List Char
  | [] => []
  | p :: ps => p.source ++ plainSource ps

/-- The message of a list of pieces. -/
def plainOutput (ps : List Piece) : List Char := ps.map Piece.output

/-- Text cut to 8 characters if it is longer, filled with blanks on the right to 8
characters if it is shorter. -/
def pad8 (s : List Char) : List Char := s.take 8 ++ List.replicate (8 - s.length) ' '

/-- A line of four bracketed fields, a blank, the message and a line feed. -/
def composeLine (first second third fourth message : List Char) : List Char :=
  ['['] ++ first ++ "] [".toList ++ second ++ "] [".toList ++ third ++ "] [".toList ++
    fourth ++ "] ".toList ++ message ++ [LF]

/-! ## The file system (model of `std::filesystem` and of `std::ofstream::open`) -/

namespace Path

/-- `path::parent_path` in the generic format: the text before the last separator, the
root for a file directly under it, nothing for a bare name. -/
def parent_path (p : List Char) : List Char :=
  if '/' ∈ p then
    let dir := ((p.reverse.dropWhile (fun c => c ≠ '/')).drop 1).reverse
    if dir = [] then ['/'] else dir
  else []

/-- `path::filename`: the text after the last separator. -/
def filename (p : List Char) : List Char :=
  (p.reverse.takeWhile (fun c => c ≠ '/')).reverse

/-- `path::extension`: from the last point of the file name on; nothing for `.`, `..`, a
name without a point and a name whose only point comes first. -/
def extension (p : List Char) : List Char :=
  let f := filename p
  let ext := (f.reverse.takeWhile (fun c => c ≠ '.')).reverse
  if f = ['.'] ∨ f = ['.', '.'] then []
  else if '.' ∈ f then (if f.length = ext.length + 1 then [] else '.' :: ext)
  else []

/-- The directory a path text names, without a leading `./`; `[]` is the current
directory, which the empty text and `.` both resolve to. -/
def directory : List Char → List Char
  | c1 :: c2 :: tl => if c1 = '.' ∧ c2 = '/' then directory tl else c1 :: c2 :: tl
  | p => if p = ['.'] then [] else p

/-- `operator/`: a directory text and a file name joined by one separator. -/
def join (dir name : List Char) : List Char :=
  if dir.getLast? = some '/' then dir ++ name else dir ++ ['/'] ++ name

end Path

/-- The files of the disk by directory and file name, the directories that exist besides
the current one, and the files whose removal fails with an exception. -/
structure Disk where
  dirs : List (List Char)
  files : List (List Char × List Char)
  locked : List (List Char × List Char)
  deriving DecidableEq, Repr

namespace Disk

/-- The directory a path text resolves to exists. -/
def hasDirectory (disk : Disk) (dir : List Char) : Bool :=
  Path.directory dir = [] || disk.dirs.contains (Path.directory dir)

/-- `std::filesystem::directory_iterator(dir)`: the paths of the entries of the
directory; `none` is the `filesystem_error` thrown for the empty path and for a directory
that does not exist. -/
def list (disk : Disk) (dir : List Char) : Option (List (List Char)) :=
  if dir = [] then none
  else if disk.hasDirectory dir then
    some ((disk.files.filter (fun e => e.1 = Path.directory dir)).map
      (fun e => Path.join dir e.2))
  else none

/-- `std::filesystem::remove(p)`: whether a file was removed, and the disk after it;
`none` is the `filesystem_error` thrown when the removal fails. -/
def remove (disk : Disk) (p : List Char) : Option (Bool × Disk) :=
  let e := (Path.directory (Path.parent_path p), Path.filename p)
  if disk.locked.contains e then none
  else if disk.files.contains e then
    some (true, { disk with files := disk.files.filter (fun f => f ≠ e) })
  else some (false, disk)

/-- The extension of a file of the disk. -/
def isLog (e : List Char × List Char) : Bool := Path.extension e.2 = ".log".toList

end Disk

/-- The manager, the disk, and the path `m_logFile` is open on. -/
structure World where
  mgr : LogManager
  disk : Disk
  openPath : Option (List Char)
  deriving DecidableEq, Repr

namespace LogManager

/-- The format `open` gives to `currentLogDate`. -/
def fileDateFormat : List Char := "%4.4d-%2.2d-%2.2d %2.2d-%2.2d-%2.2d".toList

/-- `m_logFile.open(filename)` on a closed stream: the file is created or emptied when
its directory exists, else the stream stays closed. -/
def openStream (filename : List Char) (w : World) : World :=
  let e := (Path.directory (Path.parent_path filename), Path.filename filename)
  if w.disk.hasDirectory (Path.parent_path filename) && e.2 != [] then
    { mgr := { w.mgr with m_logFile := some [] }
      disk := { w.disk with files := e :: w.disk.files.filter (fun f => f ≠ e) }
      openPath := some filename }
  else w

/-- The body of the loop of `open` over the entries of the directory: whether an
exception left the loop, and the state it left. The `std::out_of_range` of `writeLog` is
a `std::exception` too. -/
def removeOldLogs (env : Env) : List (List Char) → World → Except Fault (Bool × World)
  | [], w => .ok (false, w)
  | p :: ps, w =>
    if Path.extension p = ".log".toList then
      match w.disk.remove p with
      | none => .ok (true, w)
      | some (removed, disk1) =>
        match (if !removed then
            w.mgr.writeLog env "LogManager".toList .LL_ERROR ("Unable to remove: ".toList ++ p)
          else
            w.mgr.writeLog env "LogManager".toList .LL_INFO ("Old log removed ".toList ++ p))
          with
        | .error .outOfRange => .ok (true, { w with disk := disk1 })
        | .error e => .error e
        | .ok mgr1 => removeOldLogs env ps { w with mgr := mgr1, disk := disk1 }
    else removeOldLogs env ps w

/-- The `try` block of `open`: whether an exception left it, and the state it left. -/
def tryRemoveOldLogs (env : Env) (name : List Char) (w : World) :
    Except Fault (Bool × World) :=
  match w.disk.list (Path.parent_path name) with
  | none => .ok (true, w)
  | some entries => removeOldLogs env entries w

/-- `LogManager::open`; `what` is the text of `e.what()` in the handler. -/
def «open» (env : Env) (what : List Char) (name : List Char) (w : World) :
    Except Fault World :=
  match tryRemoveOldLogs env name { w with mgr := w.mgr.close, openPath := none } with
  | .error e => .error e
  | .ok (thrown, w1) =>
    match (if thrown then
        w1.mgr.writeLog env "LogManager".toList .LL_ERROR
          ("Unexpected error flushing old logs: ".toList ++ what)
      else .ok w1.mgr) with
    | .error e => .error e
    | .ok mgr2 =>
      match currentLogDate env fileDateFormat with
      | .error e => .error e
      | .ok date =>
        .ok (openStream (name ++ ['-'] ++ date ++ ".log".toList) { w1 with mgr := mgr2 })

end LogManager

/-! ## Words of the claims on numbers and fields -/

/-- One of `0-9`, `A-F`. -/
def isUpperHexDigit (c : Char) : Bool :=
  ('0' ≤ c && c ≤ '9') || ('A' ≤ c && c ≤ 'F')

/-- The third field of a log line: the `%8.8llX` conversion of the identity after the
cast to `unsigned long int`. -/
def threadIdField (env : Env) (id : Nat) : List Char :=
  fmtUnsigned { width := 8, prec := some 8 } 16 true [] (id % 2 ^ env.ulong_bits % 2 ^ 64)

/-- A decimal digit. -/
def isDecimalDigit (c : Char) : Bool := (digitVal c).isSome

/-- The number a run of decimal digits writes. -/
def decimalValue (ds : List Char) : Nat :=
  ds.foldl (fun acc c => acc * 10 + (digitVal c).getD 0) 0

/-- The last `k` decimal digits of `n`: `n` in `k` zero-padded digits when `n < 10 ^ k`. -/
def zeroPadded : Nat → Nat → List Char
  | 0, _ => []
  | k + 1, n => zeroPadded k (n / 10) ++ [digitChar false (n % 10)]

/-- Two decimal digits, zero-padded. -/
def pad2 (n : Nat) : List Char := zeroPadded 2 n

/-- Four decimal digits, zero-padded. -/
def pad4 (n : Nat) : List Char := zeroPadded 4 n

/-- A UTC broken-down time whose year has at most four digits: `tm_year + 1900` in
0..9999, `tm_mon` in 0..11, `tm_mday` in 1..31, `tm_hour` in 0..23, `tm_min` in 0..59,
`tm_sec` in 0..60. -/
def Tm.inRange (tm : Tm) : Bool :=
  decide (0 ≤ tm.tm_year + 1900) && decide (tm.tm_year + 1900 ≤ 9999) &&
  decide (0 ≤ tm.tm_mon) && decide (tm.tm_mon ≤ 11) &&
  decide (1 ≤ tm.tm_mday) && decide (tm.tm_mday ≤ 31) &&
  decide (0 ≤ tm.tm_hour) && decide (tm.tm_hour ≤ 23) &&
  decide (0 ≤ tm.tm_min) && decide (tm.tm_min ≤ 59) &&
  decide (0 ≤ tm.tm_sec) && decide (tm.tm_sec ≤ 60)

/-- The text `YYYY-MM-DD hh-mm-ss` of a broken-down time. -/
def fileStamp (tm : Tm) : List Char :=
  pad4 (tm.tm_year + 1900).toNat ++ ['-'] ++ pad2 (tm.tm_mon + 1).toNat ++ ['-'] ++
    pad2 tm.tm_mday.toNat ++ [' '] ++ pad2 tm.tm_hour.toNat ++ ['-'] ++
    pad2 tm.tm_min.toNat ++ ['-'] ++ pad2 tm.tm_sec.toNat

/-- The severity name of the specification: fixed text for ERROR, WARNING and INFO, and
`DEBUG` for DEBUG and every other enumerator. -/
def severityName : LogLevel → List Char
  | .LL_ERROR => "ERROR".toList
  | .LL_WARNING => "WARNING".toList
  | .LL_INFO => "INFO".toList
  | .LL_DEBUG => "DEBUG".toList
  | .LL_NONE => "DEBUG".toList

/-- A Linux clock and thread: a `pthread_t` printed in decimal, 64-bit `unsigned long`. -/
def linuxEnv : Env :=
  { tm := { tm_year := 124, tm_mon := 2, tm_mday := 5, tm_hour := 7, tm_min := 8, tm_sec := 9 }
    thread_text := "140737353987904".toList
    ulong_bits := 64 }

/-- A disk whose current directory holds the log of an earlier run and a text file. -/
def sampleDisk : Disk :=
  { dirs := [], files := [([], "old.log".toList), ([], "notes.txt".toList)], locked := [] }

/-- The manager as constructed, on the sample disk. -/
def sampleWorld : World := { mgr := LogManager.init, disk := sampleDisk, openPath := none }

/-- The sample clock one second later. -/
def laterEnv : Env := { sampleEnv with tm := { sampleEnv.tm with tm_sec := 10 } }

/-- A C library that prints nothing where `cprintf` has no answer, as for a format that
ends inside a specification. -/
def lenientPrintf : Vsnprintf := fun fmt args => some ((cprintf fmt args).getD [])

/-- A `std::thread::id` by what `operator<<` writes for it: the native handle of a running
thread, an unsigned integer of at most 64 bits, in decimal; for the identity of no thread
the text of libstdc++ (other libraries write the handle 0). -/
inductive ThreadId
  | running (handle : Nat)
  | not_running
  deriving DecidableEq, Repr

/-- The text `ss << id` leaves in `ss`. -/
def ThreadId.text : ThreadId → List Char
  | .running handle => natDigits 10 false (handle % 2 ^ 64)
  | .not_running => "thread::id of a non-executing thread".toList

/-- The array of a template of the single character `%`, followed in memory by the bytes
of `"%d%d"`. -/
def cutThenMore : List Char := lit "%" ++ lit "%d%d"

/-! ## Lemmas on the scanner -/

theorem prepend_nil (r : Rendered) : prepend [] r = r := by
  cases r with
  | error e => rfl
  | ok v => rfl

theorem prepend_append (p q : List Char) (r : Rendered) :
    prepend (p ++ q) r = prepend p (prepend q r) := by
  cases r with
  | error e => rfl
  | ok v => simp [prepend]

theorem scanSpecifier_length (tl : List Char) :
    ∀ (acc fmt ptr : List Char) (ended : Bool),
      Logger.scanSpecifier tl acc = .ok (fmt, ended, ptr) → (ptr.drop 1).length < tl.length := by
  induction tl with
  | nil => intro acc fmt ptr ended h; simp [Logger.scanSpecifier] at h
  | cons c tl ih =>
    intro acc fmt ptr ended h
    unfold Logger.scanSpecifier at h
    split at h
    · simp only [Except.ok.injEq, Prod.mk.injEq] at h
      obtain ⟨_, _, rfl⟩ := h
      simp
    · split at h
      · simp only [Except.ok.injEq, Prod.mk.injEq] at h
        obtain ⟨_, _, rfl⟩ := h
        simp
      · have := ih _ _ _ _ h
        simp only [List.length_cons]
        omega

theorem recurseLogLoop_congr (vsn : Vsnprintf) (env : Env) (self : Logger)
    (recur1 recur2 : List Char → List Arg → LogManager → Rendered)
    (input_format : List Char) (firstValue : Arg) (rest : List Arg) (format : List Char) :
    ∀ (mgr : LogManager),
      (∀ f args m, f.length < format.length → recur1 f args m = recur2 f args m) →
      Logger.recurseLogLoop vsn env self recur1 input_format firstValue rest format mgr =
        Logger.recurseLogLoop vsn env self recur2 input_format firstValue rest format mgr := by
  induction format with
  | nil => intro mgr _; rfl
  | cons c tl ih =>
    intro mgr h
    unfold Logger.recurseLogLoop
    split
    · rfl
    · split
      · cases hs : Logger.scanSpecifier tl ['%'] with
        | error e => rfl
        | ok v =>
          obtain ⟨fmt, ended, ptr⟩ := v
          have hlen := scanSpecifier_length tl _ _ _ _ hs
          have hr : ∀ args m, recur1 (ptr.drop 1) args m = recur2 (ptr.drop 1) args m := by
            intro args m
            apply h
            simp only [List.length_cons]
            omega
          simp only [hr]
      · rw [ih mgr (fun f args m hf => h f args m (by simp only [List.length_cons]; omega))]

theorem recurseLogFuel_stable (vsn : Vsnprintf) (env : Env) (self : Logger) (n : Nat) :
    ∀ (m : Nat) (format : List Char) (args : List Arg) (mgr : LogManager),
      format.length < n → format.length < m →
      Logger.recurseLogFuel vsn env self n format args mgr =
        Logger.recurseLogFuel vsn env self m format args mgr := by
  induction n with
  | zero => intro m format args mgr h; omega
  | succ n ih =>
    intro m format args mgr hn hm
    cases m with
    | zero => omega
    | succ m =>
      cases args with
      | nil => rfl
      | cons a rest =>
        simp only [Logger.recurseLogFuel]
        apply recurseLogLoop_congr
        intro f args1 m1 hf
        exact ih m f args1 m1 (by omega) (by omega)

/-- The terminal overload: `return format;`. -/
theorem recurseLog_nil (vsn : Vsnprintf) (env : Env) (self : Logger) (format : List Char)
    (mgr : LogManager) :
    Logger.recurseLog vsn env self format [] mgr =
      (match cstring format with
        | .error e => .error e
        | .ok s => .ok (s, mgr)) := rfl

/-- The variadic overload is its loop, run on itself. -/
theorem recurseLog_cons (vsn : Vsnprintf) (env : Env) (self : Logger) (format : List Char)
    (firstValue : Arg) (rest : List Arg) (mgr : LogManager) :
    Logger.recurseLog vsn env self format (firstValue :: rest) mgr =
      Logger.recurseLogLoop vsn env self (Logger.recurseLog vsn env self) format firstValue rest
        format mgr := by
  simp only [Logger.recurseLog, Logger.recurseLogFuel]
  apply recurseLogLoop_congr
  intro f args m hf
  exact recurseLogFuel_stable vsn env self _ _ f args m hf (by omega)

theorem isConversion_NUL : isConversion NUL = false := by decide

theorem cstring_append (s junk : List Char) (h : ∀ c ∈ s, c ≠ NUL) :
    cstring (s ++ NUL :: junk) = .ok s := by
  induction s with
  | nil => simp [cstring]
  | cons c tl ih =>
    have hc : c ≠ NUL := h c (by simp)
    have := ih (fun d hd => h d (by simp [hd]))
    simp [cstring, hc, this]

theorem c_str_eq_self (s : List Char) (h : ∀ c ∈ s, c ≠ NUL) : c_str s = s := by
  unfold c_str
  rw [List.takeWhile_eq_self_iff]
  intro c hc
  simpa using h c hc

theorem scanSpecifier_terminated (flags : List Char) (conv : Char) (tail : List Char)
    (hf : flags.all isFlagChar = true) (hc : isConversion conv = true) :
    ∀ acc, Logger.scanSpecifier (flags ++ conv :: tail) acc =
      .ok (acc ++ flags ++ [conv], false, conv :: tail) := by
  induction flags with
  | nil =>
    intro acc
    have hn : conv ≠ NUL := by
      intro h
      rw [h, isConversion_NUL] at hc
      exact Bool.noConfusion hc
    simp [Logger.scanSpecifier, hn, hc]
  | cons c tl ih =>
    intro acc
    simp only [List.all_cons, Bool.and_eq_true] at hf
    obtain ⟨h1, h2⟩ := hf
    simp only [isFlagChar, Bool.and_eq_true, bne_iff_ne, ne_eq, Bool.not_eq_true'] at h1
    simp [Logger.scanSpecifier, h1.1, h1.2, ih h2]

theorem scanSpecifier_unterminated (flags : List Char) (tail : List Char)
    (hf : flags.all isFlagChar = true) :
    ∀ acc, Logger.scanSpecifier (flags ++ NUL :: tail) acc =
      .ok (acc ++ flags, true, NUL :: tail) := by
  induction flags with
  | nil => intro acc; simp [Logger.scanSpecifier]
  | cons c tl ih =>
    intro acc
    simp only [List.all_cons, Bool.and_eq_true] at hf
    obtain ⟨h1, h2⟩ := hf
    simp only [isFlagChar, Bool.and_eq_true, bne_iff_ne, ne_eq, Bool.not_eq_true'] at h1
    simp [Logger.scanSpecifier, h1.1, h1.2, ih h2]

/-- Literal text in front of the loop is copied. -/
theorem recurseLogLoop_literal (vsn : Vsnprintf) (env : Env) (self : Logger)
    (recur : List Char → List Arg → LogManager → Rendered)
    (input_format : List Char) (firstValue : Arg) (rest : List Arg)
    (text tail : List Char) (mgr : LogManager) (h : text.all isLiteral = true) :
    Logger.recurseLogLoop vsn env self recur input_format firstValue rest (text ++ tail) mgr =
      prepend text
        (Logger.recurseLogLoop vsn env self recur input_format firstValue rest tail mgr) := by
  induction text with
  | nil => simp [prepend_nil]
  | cons c tl ih =>
    simp only [List.all_cons, Bool.and_eq_true] at h
    obtain ⟨h1, h2⟩ := h
    simp only [isLiteral, Bool.and_eq_true, bne_iff_ne, ne_eq] at h1
    simp only [List.cons_append, Logger.recurseLogLoop, h1.1, h1.2, if_false, List.append_eq,
      ih h2]
    cases Logger.recurseLogLoop vsn env self recur input_format firstValue rest tail mgr with
    | error e => rfl
    | ok v => rfl

/-- The loop at a terminated specifier. -/
theorem recurseLogLoop_spec (vsn : Vsnprintf) (env : Env) (self : Logger)
    (recur : List Char → List Arg → LogManager → Rendered)
    (input_format : List Char) (firstValue : Arg) (rest : List Arg)
    (flags : List Char) (conv : Char) (tail : List Char) (mgr : LogManager)
    (hf : flags.all isFlagChar = true) (hc : isConversion conv = true) :
    Logger.recurseLogLoop vsn env self recur input_format firstValue rest
        ('%' :: (flags ++ conv :: tail)) mgr =
      if '%' :: flags ++ [conv] = ['%', '%'] then
        prepend ['%'] (recur tail (firstValue :: rest) mgr)
      else
        match Logger.formatValue vsn ('%' :: flags ++ [conv]) firstValue with
        | .error e => .error e
        | .ok s => prepend s (recur tail rest mgr) := by
  have hp : ('%' : Char) ≠ NUL := by decide
  simp only [Logger.recurseLogLoop, hp, if_false, if_true,
    scanSpecifier_terminated flags conv tail hf hc, List.singleton_append, List.cons_append,
    List.drop_succ_cons, List.drop_zero, Bool.false_eq_true, List.nil_append]
  by_cases hpp : '%' :: (flags ++ [conv]) = ['%', '%']
  · simp only [hpp, if_true]
    cases recur tail (firstValue :: rest) mgr with
    | error e => rfl
    | ok v => rfl
  · simp only [hpp, if_false]
    cases Logger.formatValue vsn ('%' :: (flags ++ [conv])) firstValue with
    | error e => rfl
    | ok s =>
      cases recur tail rest mgr with
      | error e => rfl
      | ok v => rfl

/-- The consumed part of a template: `n` specifiers for `n` arguments, then any text. -/
theorem recurseLog_segments (vsn : Vsnprintf) (env : Env) (self : Logger)
    (segs : List Segment) :
    ∀ (text : List Char) (args : List Arg) (tail junk : List Char) (mgr : LogManager),
      text.all isLiteral = true → segs.all Segment.wellFormed = true →
      args.length = segs.length → (∀ c ∈ tail, c ≠ NUL) →
      Logger.recurseLog vsn env self (text ++ sourceOf segs ++ tail ++ NUL :: junk) args mgr =
        (match renderAll vsn segs args with
          | .error e => .error e
          | .ok r => .ok (text ++ r ++ tail, mgr)) := by
  induction segs with
  | nil =>
    intro text args tail junk mgr ht _ hn hz
    have ha : args = [] := List.length_eq_zero.mp (by simpa using hn)
    subst ha
    have hnul : ∀ c ∈ text ++ tail, c ≠ NUL := by
      intro c hc
      rcases List.mem_append.mp hc with h | h
      · have := (List.all_eq_true.mp ht) c h
        simp only [isLiteral, Bool.and_eq_true, bne_iff_ne, ne_eq] at this
        exact this.1
      · exact hz c h
    have := cstring_append (text ++ tail) junk hnul
    simp only [List.append_assoc] at this
    simp [recurseLog_nil, sourceOf, renderAll, this]
  | cons sg segs ih =>
    intro text args tail junk mgr ht hs hn hz
    cases args with
    | nil => simp at hn
    | cons a args =>
      simp only [List.all_cons, Bool.and_eq_true] at hs
      obtain ⟨hsg, hs⟩ := hs
      simp only [Segment.wellFormed, Bool.and_eq_true, bne_iff_ne, ne_eq] at hsg
      obtain ⟨⟨⟨hfl, hcv⟩, hne⟩, htx⟩ := hsg
      have hlen : args.length = segs.length := by simpa using hn
      have hih := ih sg.text args tail junk mgr htx hs hlen hz
      have hsrc : text ++ sourceOf (sg :: segs) ++ tail ++ NUL :: junk =
          text ++ ('%' :: (sg.flags ++ sg.conv ::
            (sg.text ++ sourceOf segs ++ tail ++ NUL :: junk))) := by
        simp [sourceOf, Segment.spec]
      rw [recurseLog_cons, hsrc, recurseLogLoop_literal _ _ _ _ _ _ _ _ _ _ ht,
        recurseLogLoop_spec _ _ _ _ _ _ _ _ _ _ _ hfl hcv]
      have hne1 : ¬ ('%' :: sg.flags ++ [sg.conv] = ['%', '%']) := hne
      rw [if_neg hne1, hih]
      simp only [renderAll, Segment.spec]
      cases Logger.formatValue vsn ('%' :: sg.flags ++ [sg.conv]) a with
      | error e => rfl
      | ok s =>
        cases renderAll vsn segs args with
        | error e => rfl
        | ok rs => simp [prepend]

/-- Arguments beyond the specifiers of a template without `%%` are left unused. -/
theorem recurseLog_extra_arguments (vsn : Vsnprintf) (env : Env) (self : Logger)
    (segs : List Segment) :
    ∀ (text : List Char) (args extra : List Arg) (junk : List Char) (mgr : LogManager),
      text.all isLiteral = true → segs.all Segment.wellFormed = true →
      args.length = segs.length →
      Logger.recurseLog vsn env self (text ++ sourceOf segs ++ NUL :: junk) (args ++ extra)
          mgr =
        (match renderAll vsn segs args with
          | .error e => .error e
          | .ok r => .ok (text ++ r, mgr)) := by
  induction segs with
  | nil =>
    intro text args extra junk mgr ht _ hn
    have ha : args = [] := List.length_eq_zero.mp (by simpa using hn)
    subst ha
    cases extra with
    | nil =>
      have h := recurseLog_segments vsn env self [] text [] [] junk mgr ht rfl rfl (by simp)
      simpa using h
    | cons e es =>
      have hloop := recurseLogLoop_literal vsn env self (Logger.recurseLog vsn env self)
        (text ++ NUL :: junk) e es text (NUL :: junk) mgr ht
      simp only [sourceOf, List.append_nil, List.nil_append, recurseLog_cons, renderAll,
        hloop, Logger.recurseLogLoop, if_true, prepend]
  | cons sg segs ih =>
    intro text args extra junk mgr ht hs hn
    cases args with
    | nil => simp at hn
    | cons a args =>
      simp only [List.all_cons, Bool.and_eq_true] at hs
      obtain ⟨hsg, hs⟩ := hs
      simp only [Segment.wellFormed, Bool.and_eq_true, bne_iff_ne, ne_eq] at hsg
      obtain ⟨⟨⟨hfl, hcv⟩, hne⟩, htx⟩ := hsg
      have hlen : args.length = segs.length := by simpa using hn
      have hih := ih sg.text args extra junk mgr htx hs hlen
      have hsrc : text ++ sourceOf (sg :: segs) ++ NUL :: junk =
          text ++ ('%' :: (sg.flags ++ sg.conv :: (sg.text ++ sourceOf segs ++ NUL :: junk))) := by
        simp [sourceOf, Segment.spec]
      rw [List.cons_append, recurseLog_cons, hsrc,
        recurseLogLoop_literal _ _ _ _ _ _ _ _ _ _ ht,
        recurseLogLoop_spec _ _ _ _ _ _ _ _ _ _ _ hfl hcv]
      have hne1 : ¬ ('%' :: sg.flags ++ [sg.conv] = ['%', '%']) := hne
      rw [if_neg hne1, hih]
      simp only [renderAll, Segment.spec]
      cases Logger.formatValue vsn ('%' :: sg.flags ++ [sg.conv]) a with
      | error e => rfl
      | ok s =>
        cases renderAll vsn segs args with
        | error e => rfl
        | ok rs => simp [prepend]

theorem sourceOf_ne_NUL (segs : List Segment) (hs : segs.all Segment.wellFormed = true) :
    ∀ c ∈ sourceOf segs, c ≠ NUL := by
  induction segs with
  | nil => intro c hc; simp [sourceOf] at hc
  | cons sg segs ih =>
    simp only [List.all_cons, Bool.and_eq_true] at hs
    obtain ⟨hsg, hs⟩ := hs
    simp only [Segment.wellFormed, Bool.and_eq_true, bne_iff_ne, ne_eq] at hsg
    obtain ⟨⟨⟨hfl, hcv⟩, _⟩, htx⟩ := hsg
    intro c hc
    simp only [sourceOf, Segment.spec, List.cons_append, List.append_assoc, List.mem_cons,
      List.mem_append, List.mem_singleton, List.singleton_append] at hc
    rcases hc with h | h | h | h | h | h
    · rw [h]; decide
    · have := (List.all_eq_true.mp hfl) c h
      simp only [isFlagChar, Bool.and_eq_true, bne_iff_ne, ne_eq] at this
      exact this.1
    · intro hn
      rw [← h, hn, isConversion_NUL] at hcv
      exact Bool.noConfusion hcv
    · cases h
    · have := (List.all_eq_true.mp htx) c h
      simp only [isLiteral, Bool.and_eq_true, bne_iff_ne, ne_eq] at this
      exact this.1
    · exact ih hs c h

theorem formatValue_boolAsText (vsn : Vsnprintf) (fmt : List Char) (a : Arg) :
    Logger.formatValue vsn fmt (boolAsText a) = Logger.formatValue vsn fmt a := by
  cases a <;> rfl

theorem recurseLogLoop_boolAsText (vsn : Vsnprintf) (env : Env) (self : Logger)
    (recur : List Char → List Arg → LogManager → Rendered)
    (hrec : ∀ f args m, recur f (args.map boolAsText) m = recur f args m)
    (input_format : List Char) (firstValue : Arg) (rest : List Arg) (format : List Char) :
    ∀ (mgr : LogManager),
      Logger.recurseLogLoop vsn env self recur input_format (boolAsText firstValue)
          (rest.map boolAsText) format mgr =
        Logger.recurseLogLoop vsn env self recur input_format firstValue rest format mgr := by
  induction format with
  | nil => intro mgr; rfl
  | cons c tl ih =>
    intro mgr
    have h1 := hrec
    have h2 : ∀ f m, recur f (boolAsText firstValue :: rest.map boolAsText) m =
        recur f (firstValue :: rest) m := fun f m => hrec f (firstValue :: rest) m
    simp only [Logger.recurseLogLoop, ih, h1, h2, formatValue_boolAsText]

theorem recurseLogFuel_boolAsText (vsn : Vsnprintf) (env : Env) (self : Logger) (n : Nat) :
    ∀ (format : List Char) (args : List Arg) (mgr : LogManager),
      Logger.recurseLogFuel vsn env self n format (args.map boolAsText) mgr =
        Logger.recurseLogFuel vsn env self n format args mgr := by
  induction n with
  | zero => intro format args mgr; rfl
  | succ n ih =>
    intro format args mgr
    cases args with
    | nil => rfl
    | cons a rest =>
      simp only [List.map_cons, Logger.recurseLogFuel]
      exact recurseLogLoop_boolAsText vsn env self _ ih format a rest format mgr

theorem plainSource_ne_NUL (ps : List Piece) (h : ps.all Piece.wellFormed = true) :
    ∀ c ∈ plainSource ps, c ≠ NUL := by
  induction ps with
  | nil => intro c hc; simp [plainSource] at hc
  | cons p ps ih =>
    simp only [List.all_cons, Bool.and_eq_true] at h
    obtain ⟨hp, hps⟩ := h
    intro c hc
    simp only [plainSource, List.mem_append] at hc
    rcases hc with hc | hc
    · cases p with
      | text d =>
        simp only [Piece.source, List.mem_singleton] at hc
        simp only [Piece.wellFormed, isLiteral, Bool.and_eq_true, bne_iff_ne, ne_eq] at hp
        rw [hc]; exact hp.1
      | percent =>
        simp only [Piece.source, List.mem_cons, List.mem_singleton, List.not_mem_nil,
          or_false, or_self] at hc
        rw [hc]; decide
    · exact ih hps c hc

theorem plainOutput_ne_NUL (ps : List Piece) (h : ps.all Piece.wellFormed = true) :
    ∀ c ∈ plainOutput ps, c ≠ NUL := by
  intro c hc
  simp only [plainOutput, List.mem_map] at hc
  obtain ⟨p, hp, rfl⟩ := hc
  have hw := (List.all_eq_true.mp h) p hp
  cases p with
  | text d =>
    simp only [Piece.wellFormed, isLiteral, Bool.and_eq_true, bne_iff_ne, ne_eq] at hw
    exact hw.1
  | percent => decide

/-- What `printf` prints for literal characters and `%%` sequences. -/
theorem vformat_plain (ps : List Piece) (h : ps.all Piece.wellFormed = true) :
    ∀ (sp : ConvSpec) (args : List CVal),
      vformat .lit sp (plainSource ps) args = some (plainOutput ps) := by
  induction ps with
  | nil => intro sp args; rfl
  | cons p ps ih =>
    simp only [List.all_cons, Bool.and_eq_true] at h
    obtain ⟨hp, hps⟩ := h
    intro sp args
    cases p with
    | text d =>
      simp only [Piece.wellFormed, isLiteral, Bool.and_eq_true, bne_iff_ne, ne_eq] at hp
      simp [plainSource, Piece.source, vformat, hp.2, ih hps, plainOutput, Piece.output]
    | percent =>
      have hadv : advance .flags {} '%' = none := by decide
      simp [plainSource, Piece.source, vformat, hadv, convert, ih hps, plainOutput,
        Piece.output]

theorem c_str_idem (s : List Char) : c_str (c_str s) = c_str s := by
  apply c_str_eq_self
  intro c hc
  have := List.mem_takeWhile_imp hc
  simpa using this

theorem currentLogDate_c_str (env : Env) (format ts : List Char)
    (h : LogManager.currentLogDate env format = .ok ts) : c_str ts = ts := by
  simp only [LogManager.currentLogDate] at h
  split at h
  · cases h
  · simp only [Except.ok.injEq] at h
    rw [← h, c_str_idem]

theorem currentLogDate_dateFormat (env : Env) :
    ∃ ts, LogManager.currentLogDate env LogManager.dateFormat = .ok ts :=
  ⟨_, rfl⟩

theorem pad8_length (s : List Char) : (pad8 s).length = 8 := by
  simp only [pad8, List.length_append, List.length_take, List.length_replicate]
  omega

theorem fmtString_left8 (s : List Char) :
    fmtString { minus := true, width := 8, prec := some 8 } s = pad8 s := by
  simp only [fmtString, padField, pad8, List.length_nil, Nat.zero_add, List.nil_append,
    List.length_take, if_true]
  congr 2
  omega

theorem fmtString_plain (s : List Char) : fmtString {} s = s := by
  simp [fmtString, padField]

theorem cprintf_logFormat (a b c d : List Char) (n : Nat) :
    cprintf LogManager.logFormat [.cstr a, .cstr b, .uint n, .cstr c, .cstr d] =
      some (composeLine (fmtString {} a)
        (fmtString { minus := true, width := 8, prec := some 8 } b)
        (fmtUnsigned { width := 8, prec := some 8 } 16 true [] n)
        (fmtString { minus := true, width := 8, prec := some 8 } c)
        (fmtString {} d)) := by
  have hLF : LF ≠ '%' := by decide
  simp [cprintf, LogManager.logFormat, vformat, advance, convert, digitVal, isLengthMod,
    composeLine, hLF]

theorem strLevel_c_str (level : LogLevel) :
    c_str (LogManager.strLevel level) = LogManager.strLevel level := by
  cases level <;> decide

/-! ## Lemmas on digits -/

theorem natDigitsAux_fuel (b : Nat) (u : Bool) (hb : 2 ≤ b) (f1 : Nat) :
    ∀ (f2 n : Nat) (acc : List Char), n < f1 → n < f2 →
      natDigitsAux b u f1 n acc = natDigitsAux b u f2 n acc := by
  induction f1 with
  | zero => intro f2 n acc h; omega
  | succ f1 ih =>
    intro f2 n acc h1 h2
    cases f2 with
    | zero => omega
    | succ f2 =>
      simp only [natDigitsAux]
      split
      · rfl
      · rename_i hq
        have hn : 0 < n := by
          rcases Nat.eq_zero_or_pos n with h | h
          · rw [h] at hq; simp at hq
          · exact h
        have hlt : n / b < n := Nat.div_lt_self hn (by omega)
        exact ih f2 (n / b) _ (by omega) (by omega)

theorem natDigitsAux_acc (b : Nat) (u : Bool) (f : Nat) :
    ∀ (n : Nat) (acc : List Char),
      natDigitsAux b u f n acc = natDigitsAux b u f n [] ++ acc := by
  induction f with
  | zero => intro n acc; rfl
  | succ f ih =>
    intro n acc
    simp only [natDigitsAux]
    split
    · rfl
    · rw [ih (n / b) (digitChar u (n % b) :: acc), ih (n / b) [digitChar u (n % b)]]
      simp

theorem natDigits_lt (b : Nat) (u : Bool) (n : Nat) (h : n < b) :
    natDigits b u n = [digitChar u n] := by
  simp [natDigits, natDigitsAux, Nat.div_eq_of_lt h, Nat.mod_eq_of_lt h]

theorem natDigits_ge (b : Nat) (u : Bool) (n : Nat) (hb : 2 ≤ b) (h : b ≤ n) :
    natDigits b u n = natDigits b u (n / b) ++ [digitChar u (n % b)] := by
  have hq : n / b ≠ 0 := by
    have : 0 < n / b := Nat.div_pos h (by omega)
    omega
  have hlt : n / b < n := Nat.div_lt_self (by omega) (by omega)
  have h1 : natDigits b u n = natDigitsAux b u n (n / b) [digitChar u (n % b)] := by
    simp only [natDigits, natDigitsAux, hq, if_false]
  rw [h1, natDigitsAux_fuel b u hb n (n / b + 1) (n / b) _ hlt (by omega), natDigitsAux_acc]
  rfl

theorem natDigits_length_le (b : Nat) (u : Bool) (hb : 2 ≤ b) (k : Nat) :
    ∀ n, n < b ^ (k + 1) → (natDigits b u n).length ≤ k + 1 := by
  induction k with
  | zero =>
    intro n hn
    rw [natDigits_lt b u n (by simpa using hn)]
    simp
  | succ k ih =>
    intro n hn
    by_cases hlt : n < b
    · rw [natDigits_lt b u n hlt]; simp
    · rw [natDigits_ge b u n hb (by omega)]
      have hdiv : n / b < b ^ (k + 1) := by
        apply Nat.div_lt_of_lt_mul
        rw [pow_succ] at hn
        rw [Nat.mul_comm]
        exact hn
      have := ih (n / b) hdiv
      simp only [List.length_append, List.length_singleton]
      omega

theorem natDigits_length_gt (b : Nat) (u : Bool) (hb : 2 ≤ b) (k : Nat) :
    ∀ n, b ^ k ≤ n → k + 1 ≤ (natDigits b u n).length := by
  induction k with
  | zero =>
    intro n _
    by_cases hlt : n < b
    · rw [natDigits_lt b u n hlt]; simp
    · rw [natDigits_ge b u n hb (by omega)]; simp
  | succ k ih =>
    intro n hn
    have hbk : b ≤ b ^ (k + 1) := by
      calc b = b ^ 1 := (pow_one b).symm
        _ ≤ b ^ (k + 1) := Nat.pow_le_pow_right (by omega) (by omega)
    rw [natDigits_ge b u n hb (by omega)]
    have hdiv : b ^ k ≤ n / b := by
      rw [Nat.le_div_iff_mul_le (by omega)]
      rw [pow_succ] at hn
      exact hn
    have := ih (n / b) hdiv
    simp only [List.length_append, List.length_singleton]
    omega

theorem digitChar_upper_hex (d : Nat) (h : d < 16) :
    isUpperHexDigit (digitChar true d) = true := by
  interval_cases d <;> decide

theorem natDigits_upper_hex (n : Nat) :
    ∀ c ∈ natDigits 16 true n, isUpperHexDigit c = true := by
  induction n using Nat.strong_induction_on with
  | _ n ih =>
    intro c hc
    by_cases hlt : n < 16
    · rw [natDigits_lt 16 true n hlt] at hc
      simp only [List.mem_singleton] at hc
      rw [hc]
      exact digitChar_upper_hex n hlt
    · rw [natDigits_ge 16 true n (by omega) (by omega)] at hc
      simp only [List.mem_append, List.mem_singleton] at hc
      rcases hc with hc | hc
      · exact ih (n / 16) (Nat.div_lt_self (by omega) (by omega)) c hc
      · rw [hc]
        exact digitChar_upper_hex _ (Nat.mod_lt _ (by omega))

theorem fmtUnsigned_hex8 (v : Nat) :
    fmtUnsigned { width := 8, prec := some 8 } 16 true [] v =
      List.replicate (8 - (natDigits 16 true v).length) '0' ++ natDigits 16 true v := by
  have h0 : ¬ (v = 0 ∧ (some 8 : Option Nat) = some 0) := by
    intro h
    cases h.2
  simp only [fmtUnsigned, h0, if_false, padField, Option.getD_some, List.length_nil,
    Nat.zero_add, List.length_append, List.length_replicate, Option.isNone_some,
    Bool.and_false, Bool.false_eq_true, List.nil_append, List.append_nil]
  have hfill : 8 - (8 - (natDigits 16 true v).length + (natDigits 16 true v).length) = 0 := by
    omega
  rw [hfill]
  simp

/-! ## Lemmas on `writeLog` and `getThreadId` -/

/-- What an admitted `writeLog` does, in full. -/
theorem writeLog_admitted (env : Env) (mgr : LogManager) (name : List Char) (level : LogLevel)
    (message : List Char) (id : Nat) (hadm : mgr.isLoggable level = true)
    (hid : LogManager.getThreadId env.thread_text = .ok id) :
    ∃ timestamp : List Char,
      LogManager.currentLogDate env LogManager.dateFormat = .ok timestamp ∧
      mgr.writeLog env name level message =
        .ok { mgr with
              console := mgr.console ++
                composeLine timestamp (pad8 (c_str name)) (threadIdField env id)
                  (pad8 (LogManager.strLevel level)) (c_str message)
              m_logFile := mgr.m_logFile.map (fun f => f ++
                composeLine timestamp (pad8 (c_str name)) (threadIdField env id)
                  (pad8 (LogManager.strLevel level)) (c_str message)) } := by
  obtain ⟨ts, hts⟩ := currentLogDate_dateFormat env
  refine ⟨ts, hts, ?_⟩
  simp only [LogManager.writeLog, hadm, Bool.not_true, Bool.false_eq_true, if_false, hts, hid,
    currentLogDate_c_str env _ ts hts, strLevel_c_str, cprintf_logFormat,
    fmtString_left8, fmtString_plain, threadIdField]

theorem writeLog_not_admitted (env : Env) (mgr : LogManager) (name : List Char)
    (level : LogLevel) (message : List Char) (h : mgr.isLoggable level = false) :
    mgr.writeLog env name level message = .ok mgr := by
  simp [LogManager.writeLog, h]

theorem threadIdField_length (env : Env) (id : Nat) :
    8 ≤ (threadIdField env id).length ∧
    ((threadIdField env id).length = 8 ↔ id % 2 ^ env.ulong_bits % 2 ^ 64 < 2 ^ 32) := by
  simp only [threadIdField, fmtUnsigned_hex8, List.length_append, List.length_replicate]
  constructor
  · omega
  · constructor
    · intro h
      by_contra hge
      have := natDigits_length_gt 16 true (by omega) 8 (id % 2 ^ env.ulong_bits % 2 ^ 64)
        (by norm_num at hge ⊢; omega)
      omega
    · intro h
      have := natDigits_length_le 16 true (by omega) 7 (id % 2 ^ env.ulong_bits % 2 ^ 64)
        (by norm_num at h ⊢; omega)
      omega

theorem threadIdField_hex (env : Env) (id : Nat) :
    ∀ c ∈ threadIdField env id, isUpperHexDigit c = true := by
  intro c hc
  simp only [threadIdField, fmtUnsigned_hex8, List.mem_append, List.mem_replicate] at hc
  rcases hc with hc | hc
  · rw [hc.2]; decide
  · exact natDigits_upper_hex _ c hc

theorem digitVal_toNat (c : Char) (d : Nat) (h : digitVal c = some d) :
    48 ≤ c.toNat ∧ c.toNat ≤ 57 := by
  unfold digitVal at h
  split at h
  · rename_i hc
    obtain ⟨h1, h2⟩ := hc
    have h1n : ('0' : Char).toNat ≤ c.toNat := h1
    have h2n : c.toNat ≤ ('9' : Char).toNat := h2
    have e0 : ('0' : Char).toNat = 48 := by decide
    have e9 : ('9' : Char).toNat = 57 := by decide
    omega
  · cases h

theorem digit_not_space (c : Char) (d : Nat) (h : digitVal c = some d) :
    isSpaceChar c = false ∧ c ≠ '-' ∧ c ≠ '+' := by
  have ht := digitVal_toNat c d h
  refine ⟨?_, ?_, ?_⟩
  · have hsp : c ≠ ' ' := by
      intro hc
      rw [hc] at ht
      have : (' ' : Char).toNat = 32 := by decide
      omega
    simp only [isSpaceChar, hsp, decide_False, Bool.false_or, Bool.and_eq_false_imp,
      decide_eq_true_eq]
    intro _
    simp only [decide_eq_false_iff_not]
    omega
  · intro hc
    rw [hc] at ht
    have : ('-' : Char).toNat = 45 := by decide
    omega
  · intro hc
    rw [hc] at ht
    have : ('+' : Char).toNat = 43 := by decide
    omega

theorem readDigits_run (ds : List Char) (rest : List Char)
    (hds : ds.all isDecimalDigit = true) (hrest : rest.head?.bind digitVal = none) :
    ∀ acc k, readDigits (ds ++ rest) acc k =
      (ds.foldl (fun a c => a * 10 + (digitVal c).getD 0) acc, k + ds.length) := by
  induction ds with
  | nil =>
    intro acc k
    cases rest with
    | nil => rfl
    | cons c tl =>
      simp only [List.head?_cons, Option.some_bind] at hrest
      simp [readDigits, hrest]
  | cons c tl ih =>
    intro acc k
    simp only [List.all_cons, Bool.and_eq_true] at hds
    obtain ⟨hc, htl⟩ := hds
    simp only [isDecimalDigit, Option.isSome_iff_exists] at hc
    obtain ⟨d, hd⟩ := hc
    simp only [List.cons_append, readDigits, hd, List.append_eq, ih htl, List.foldl_cons,
      Option.getD_some, List.length_cons]
    congr 1
    omega

/-- `stoull` on a run of digits followed by something that is not a digit. -/
theorem stoull_digits (ds rest : List Char) (hne : ds ≠ [])
    (hds : ds.all isDecimalDigit = true) (hrest : rest.head?.bind digitVal = none) :
    stoull (ds ++ rest) =
      if 2 ^ 64 ≤ decimalValue ds then .error .out_of_range else .ok (decimalValue ds) := by
  cases ds with
  | nil => exact absurd rfl hne
  | cons c tl =>
    have hc : isDecimalDigit c = true := by
      simp only [List.all_cons, Bool.and_eq_true] at hds
      exact hds.1
    simp only [isDecimalDigit, Option.isSome_iff_exists] at hc
    obtain ⟨d, hd⟩ := hc
    obtain ⟨hsp, hminus, hplus⟩ := digit_not_space c d hd
    have hrun := readDigits_run (c :: tl) rest hds hrest 0 0
    simp only [stoull, List.cons_append, List.dropWhile_cons, hsp, Bool.false_eq_true,
      if_false, List.head?_cons, Option.some.injEq, hminus, hplus, or_self]
    simp only [List.cons_append] at hrun
    rw [hrun]
    simp [decimalValue]

/-- `stoull` on a text that starts with neither white space, a sign nor a digit. -/
theorem stoull_no_digits (s : List Char)
    (h : s = [] ∨ ∃ c tl, s = c :: tl ∧ isSpaceChar c = false ∧ c ≠ '-' ∧ c ≠ '+' ∧
      digitVal c = none) :
    stoull s = .error .invalid_argument := by
  rcases h with h | ⟨c, tl, hs, hsp, hminus, hplus, hd⟩
  · subst h
    rfl
  · subst hs
    simp [stoull, List.dropWhile_cons, hsp, hminus, hplus, readDigits, hd]

/-! ## Lemmas on `open` -/

theorem zeroPadded_length (k : Nat) : ∀ n, (zeroPadded k n).length = k := by
  induction k with
  | zero => intro n; rfl
  | succ k ih => intro n; simp [zeroPadded, ih]

theorem zeroPadded_zero (k : Nat) : zeroPadded k 0 = List.replicate k '0' := by
  induction k with
  | zero => rfl
  | succ k ih =>
    simp only [zeroPadded, Nat.zero_div, ih, Nat.zero_mod]
    rw [List.replicate_succ']
    rfl

theorem natDigits_zeroPadded (k : Nat) :
    ∀ n, n < 10 ^ (k + 1) →
      List.replicate (k + 1 - (natDigits 10 false n).length) '0' ++ natDigits 10 false n =
        zeroPadded (k + 1) n := by
  induction k with
  | zero =>
    intro n hn
    have hlt : n < 10 := by simpa using hn
    simp [natDigits_lt 10 false n hlt, zeroPadded, Nat.mod_eq_of_lt hlt]
  | succ k ih =>
    intro n hn
    by_cases hlt : n < 10
    · rw [natDigits_lt 10 false n hlt]
      simp only [zeroPadded, Nat.div_eq_of_lt hlt, Nat.mod_eq_of_lt hlt, Nat.zero_div,
        Nat.zero_mod, List.length_singleton, Nat.add_sub_cancel]
      have h0 := zeroPadded_zero k
      rw [h0, List.replicate_succ']
      rfl
    · rw [natDigits_ge 10 false n (by omega) (by omega)]
      have hdiv : n / 10 < 10 ^ (k + 1) := by
        apply Nat.div_lt_of_lt_mul
        rw [pow_succ] at hn
        omega
      have := ih (n / 10) hdiv
      simp only [List.length_append, List.length_singleton, Nat.add_sub_add_right]
      rw [← List.append_assoc, this]
      rfl

theorem fmtSigned_zeroPadded (k : Nat) (n : Int) (h0 : 0 ≤ n) (hk : n.toNat < 10 ^ (k + 1)) :
    fmtSigned { width := k + 1, prec := some (k + 1) } n = zeroPadded (k + 1) n.toNat := by
  have hneg : ¬ n < 0 := by omega
  have habs : n.natAbs = n.toNat := by omega
  have hp : ¬ (n.toNat = 0 ∧ (some (k + 1) : Option Nat) = some 0) := by
    intro h
    have := h.2
    simp at this
  have hz := natDigits_zeroPadded k n.toNat hk
  have hlen := congrArg List.length hz
  simp only [List.length_append, List.length_replicate, zeroPadded_length] at hlen
  simp only [fmtSigned, hneg, if_false, habs, fmtUnsigned, hp, padField, Option.getD_some,
    List.length_nil, Nat.zero_add, List.length_append, List.length_replicate, hlen,
    Nat.sub_self, List.replicate_zero, List.nil_append, Bool.false_eq_true, hz,
    Option.isNone_some, Bool.and_false, zeroPadded_length, List.append_nil]

theorem digitChar_ne_NUL (d : Nat) (h : d < 10) : digitChar false d ≠ NUL := by
  interval_cases d <;> decide

theorem zeroPadded_ne_NUL (k : Nat) : ∀ n, ∀ c ∈ zeroPadded k n, c ≠ NUL := by
  induction k with
  | zero => intro n c hc; simp [zeroPadded] at hc
  | succ k ih =>
    intro n c hc
    simp only [zeroPadded, List.mem_append, List.mem_singleton] at hc
    rcases hc with hc | hc
    · exact ih _ c hc
    · rw [hc]
      exact digitChar_ne_NUL _ (Nat.mod_lt _ (by omega))

theorem cprintf_fileDateFormat (a b c d e f : Int) :
    cprintf LogManager.fileDateFormat [.int a, .int b, .int c, .int d, .int e, .int f] =
      some (fmtSigned { width := 4, prec := some 4 } a ++ ['-'] ++
        fmtSigned { width := 2, prec := some 2 } b ++ ['-'] ++
        fmtSigned { width := 2, prec := some 2 } c ++ [' '] ++
        fmtSigned { width := 2, prec := some 2 } d ++ ['-'] ++
        fmtSigned { width := 2, prec := some 2 } e ++ ['-'] ++
        fmtSigned { width := 2, prec := some 2 } f) := by
  simp [cprintf, LogManager.fileDateFormat, vformat, advance, convert, digitVal, isLengthMod]

theorem fileStamp_length (tm : Tm) : (fileStamp tm).length = 19 := by
  simp [fileStamp, pad2, pad4, zeroPadded_length]

/-- The date `open` asks for, for a broken-down time in range. -/
theorem currentLogDate_fileDateFormat (env : Env) (h : env.tm.inRange = true) :
    LogManager.currentLogDate env LogManager.fileDateFormat = .ok (fileStamp env.tm) := by
  simp only [Tm.inRange, Bool.and_eq_true, decide_eq_true_eq] at h
  obtain ⟨⟨⟨⟨⟨⟨⟨⟨⟨⟨⟨h1, h2⟩, h3⟩, h4⟩, h5⟩, h6⟩, h7⟩, h8⟩, h9⟩, h10⟩, h11⟩, h12⟩ := h
  have hfmt : c_str LogManager.fileDateFormat = LogManager.fileDateFormat := by decide
  have e1 := fmtSigned_zeroPadded 3 (env.tm.tm_year + 1900) h1 (by norm_num; omega)
  have e2 := fmtSigned_zeroPadded 1 (env.tm.tm_mon + 1) (by omega) (by norm_num; omega)
  have e3 := fmtSigned_zeroPadded 1 env.tm.tm_mday (by omega) (by norm_num; omega)
  have e4 := fmtSigned_zeroPadded 1 env.tm.tm_hour h7 (by norm_num; omega)
  have e5 := fmtSigned_zeroPadded 1 env.tm.tm_min h9 (by norm_num; omega)
  have e6 := fmtSigned_zeroPadded 1 env.tm.tm_sec h11 (by norm_num; omega)
  simp only [Nat.reduceAdd] at e1 e2 e3 e4 e5 e6
  simp only [LogManager.currentLogDate, hfmt, cprintf_fileDateFormat, e1, e2, e3, e4, e5, e6]
  have hnul : ∀ c ∈ fileStamp env.tm, c ≠ NUL := by
    intro c hc
    simp only [fileStamp, pad2, pad4, List.mem_append, List.mem_singleton] at hc
    rcases hc with ((((((((((hc | hc) | hc) | hc) | hc) | hc) | hc) | hc) | hc) | hc) | hc)
    all_goals first
      | exact zeroPadded_ne_NUL _ _ c hc
      | (rw [hc]; decide)
  have := c_str_eq_self _ hnul
  simp only [fileStamp, pad2, pad4] at this ⊢
  rw [this]

theorem writeLog_ok (env : Env) (mgr : LogManager) (name : List Char) (level : LogLevel)
    (message : List Char) (id : Nat)
    (hid : LogManager.getThreadId env.thread_text = .ok id) :
    ∃ mgr1, mgr.writeLog env name level message = .ok mgr1 := by
  cases hadm : mgr.isLoggable level with
  | false => exact ⟨mgr, writeLog_not_admitted env mgr name level message hadm⟩
  | true =>
    obtain ⟨ts, _, hw⟩ := writeLog_admitted env mgr name level message id hadm hid
    exact ⟨_, hw⟩

theorem Disk_remove_dirs (disk disk1 : Disk) (p : List Char) (b : Bool)
    (h : disk.remove p = some (b, disk1)) : disk1.dirs = disk.dirs := by
  unfold Disk.remove at h
  simp only at h
  split at h
  · cases h
  · split at h
    · simp only [Option.some.injEq, Prod.mk.injEq] at h
      rw [← h.2]
    · simp only [Option.some.injEq, Prod.mk.injEq] at h
      rw [← h.2]

theorem removeOldLogs_ok (env : Env) (id : Nat)
    (hid : LogManager.getThreadId env.thread_text = .ok id) (entries : List (List Char)) :
    ∀ w : World, ∃ thrown w1, LogManager.removeOldLogs env entries w = .ok (thrown, w1) ∧
      w1.disk.dirs = w.disk.dirs := by
  induction entries with
  | nil => intro w; exact ⟨false, w, rfl, rfl⟩
  | cons p ps ih =>
    intro w
    unfold LogManager.removeOldLogs
    split
    · cases hr : w.disk.remove p with
      | none => exact ⟨true, w, rfl, rfl⟩
      | some r =>
        obtain ⟨removed, disk1⟩ := r
        have hd := Disk_remove_dirs w.disk disk1 p removed hr
        cases removed with
        | false =>
          obtain ⟨mgr1, hm⟩ := writeLog_ok env w.mgr "LogManager".toList .LL_ERROR
            ("Unable to remove: ".toList ++ p) id hid
          obtain ⟨thrown, w1, h1, h2⟩ := ih { w with mgr := mgr1, disk := disk1 }
          refine ⟨thrown, w1, ?_, ?_⟩
          · simp only [Bool.not_false, if_true, hm, h1]
          · rw [h2, hd]
        | true =>
          obtain ⟨mgr1, hm⟩ := writeLog_ok env w.mgr "LogManager".toList .LL_INFO
            ("Old log removed ".toList ++ p) id hid
          obtain ⟨thrown, w1, h1, h2⟩ := ih { w with mgr := mgr1, disk := disk1 }
          refine ⟨thrown, w1, ?_, ?_⟩
          · simp only [Bool.not_true, Bool.false_eq_true, if_false, hm, h1]
          · rw [h2, hd]
    · exact ih w

theorem filename_log_ne_nil (x : List Char) : Path.filename (x ++ ".log".toList) ≠ [] := by
  have hl : ".log".toList = ['.', 'l', 'o', 'g'] := rfl
  have hg : ('g' : Char) ≠ '/' := by decide
  simp [Path.filename, hl, List.reverse_append, List.takeWhile_cons, hg]

/-! ## Lemmas on termination -/

theorem writeLog_ne_outOfFuel (env : Env) (mgr : LogManager) (name : List Char)
    (level : LogLevel) (message : List Char) :
    mgr.writeLog env name level message ≠ .error .outOfFuel := by
  unfold LogManager.writeLog
  split
  · intro h; cases h
  · cases hd : LogManager.currentLogDate env LogManager.dateFormat with
    | error e =>
      simp only [LogManager.currentLogDate] at hd
      split at hd
      · cases hd
        intro h; cases h
      · cases hd
    | ok date =>
      cases hi : LogManager.getThreadId env.thread_text with
      | error e =>
        simp only [LogManager.getThreadId] at hi
        split at hi
        · cases hi
        · cases hi
        · cases hi
          intro h; cases h
      | ok id =>
        simp only
        split
        · intro h; cases h
        · intro h; cases h

theorem format_ne_outOfFuel (vsn : Vsnprintf) (fmt : List Char) (values : List CVal) :
    Logger.format vsn fmt values ≠ .error .outOfFuel := by
  unfold Logger.format
  split
  · intro h; cases h
  · intro h; cases h

theorem formatValue_ne_outOfFuel (vsn : Vsnprintf) (fmt : List Char) (a : Arg) :
    Logger.formatValue vsn fmt a ≠ .error .outOfFuel := by
  cases a with
  | bool b => exact format_ne_outOfFuel _ _ _
  | string s => exact format_ne_outOfFuel _ _ _
  | prim v => exact format_ne_outOfFuel _ _ _
  | thread_id text =>
    simp only [Logger.formatValue]
    cases hi : LogManager.getThreadId text with
    | error e =>
      simp only [LogManager.getThreadId] at hi
      split at hi
      · cases hi
      · cases hi
      · cases hi
        intro h; cases h
    | ok id => exact format_ne_outOfFuel _ _ _

theorem cstring_ne_outOfFuel (s : List Char) : cstring s ≠ .error .outOfFuel := by
  induction s with
  | nil => intro h; cases h
  | cons c tl ih =>
    unfold cstring
    split
    · intro h; cases h
    · cases ht : cstring tl with
      | error e =>
        intro h
        simp only [Except.error.injEq] at h
        rw [h] at ht
        exact ih ht
      | ok v => intro h; cases h

/-- Where the inner loop stops: at the first character that is the NUL or a conversion
character, with everything before it collected. -/
theorem scanSpecifier_stops_at_first (tl : List Char) :
    ∀ (acc fmt ptr : List Char) (ended : Bool),
      Logger.scanSpecifier tl acc = .ok (fmt, ended, ptr) →
      ∃ before c rest, tl = before ++ c :: rest ∧ ptr = c :: rest ∧
        before.all isFlagChar = true ∧
        ((ended = true ∧ c = NUL ∧ fmt = acc ++ before) ∨
         (ended = false ∧ isConversion c = true ∧ fmt = acc ++ before ++ [c])) := by
  induction tl with
  | nil => intro acc fmt ptr ended h; simp [Logger.scanSpecifier] at h
  | cons c tl ih =>
    intro acc fmt ptr ended h
    unfold Logger.scanSpecifier at h
    split at h
    · rename_i hc
      simp only [Except.ok.injEq, Prod.mk.injEq] at h
      obtain ⟨h1, h2, h3⟩ := h
      exact ⟨[], c, tl, rfl, h3.symm, rfl, Or.inl ⟨h2.symm, hc, by simp [h1]⟩⟩
    · rename_i hc
      split at h
      · rename_i hconv
        simp only [Except.ok.injEq, Prod.mk.injEq] at h
        obtain ⟨h1, h2, h3⟩ := h
        exact ⟨[], c, tl, rfl, h3.symm, rfl, Or.inr ⟨h2.symm, hconv, by simp [h1]⟩⟩
      · rename_i hconv
        obtain ⟨before, d, rest, e1, e2, e3, e4⟩ := ih _ _ _ _ h
        refine ⟨c :: before, d, rest, by simp [e1], e2, ?_, ?_⟩
        · simp only [List.all_cons, e3, Bool.and_true, isFlagChar, Bool.and_eq_true,
            bne_iff_ne, ne_eq, Bool.not_eq_true']
          exact ⟨hc, by simpa using hconv⟩
        · rcases e4 with ⟨a1, a2, a3⟩ | ⟨a1, a2, a3⟩
          · exact Or.inl ⟨a1, a2, by simp [a3]⟩
          · exact Or.inr ⟨a1, a2, by simp [a3]⟩

theorem scanSpecifier_ne_outOfFuel (tl : List Char) :
    ∀ acc, Logger.scanSpecifier tl acc ≠ .error .outOfFuel := by
  induction tl with
  | nil => intro acc h; cases h
  | cons c tl ih =>
    intro acc
    unfold Logger.scanSpecifier
    split
    · intro h; cases h
    · split
      · intro h; cases h
      · exact ih _

theorem recurseLogLoop_ne_outOfFuel (vsn : Vsnprintf) (env : Env) (self : Logger)
    (recur : List Char → List Arg → LogManager → Rendered)
    (input_format : List Char) (firstValue : Arg) (rest : List Arg) (format : List Char) :
    ∀ (mgr : LogManager),
      (∀ f args m, f.length < format.length → recur f args m ≠ .error .outOfFuel) →
      Logger.recurseLogLoop vsn env self recur input_format firstValue rest format mgr ≠
        .error .outOfFuel := by
  induction format with
  | nil => intro mgr _ h; cases h
  | cons c tl ih =>
    intro mgr hrec
    unfold Logger.recurseLogLoop
    split
    · intro h; cases h
    · split
      · cases hs : Logger.scanSpecifier tl ['%'] with
        | error e =>
          intro h
          simp only [Except.error.injEq] at h
          rw [h] at hs
          exact scanSpecifier_ne_outOfFuel tl _ hs
        | ok v =>
          obtain ⟨fmt, ended, ptr⟩ := v
          have hlen := scanSpecifier_length tl _ _ _ _ hs
          have hr : ∀ args m, recur (ptr.drop 1) args m ≠ .error .outOfFuel := by
            intro args m
            apply hrec
            simp only [List.length_cons]
            omega
          simp only
          cases hw : (if ended = true then
              mgr.writeLog env self.m_name .LL_ERROR
                (Logger.invalidSpecifier fmt input_format)
            else .ok mgr) with
          | error e =>
            intro h
            simp only [Except.error.injEq] at h
            rw [h] at hw
            split at hw
            · exact writeLog_ne_outOfFuel _ _ _ _ _ hw
            · cases hw
          | ok mgr1 =>
            simp only
            split
            · cases h1 : recur (ptr.drop 1) (firstValue :: rest) mgr1 with
              | error e =>
                intro h
                simp only [Except.error.injEq] at h
                rw [h] at h1
                exact hr _ _ h1
              | ok v => intro h; cases h
            · cases h2 : Logger.formatValue vsn fmt firstValue with
              | error e =>
                intro h
                simp only [Except.error.injEq] at h
                rw [h] at h2
                exact formatValue_ne_outOfFuel _ _ _ h2
              | ok s =>
                cases h1 : recur (ptr.drop 1) rest mgr1 with
                | error e =>
                  intro h
                  simp only [Except.error.injEq] at h
                  rw [h] at h1
                  exact hr _ _ h1
                | ok v => intro h; cases h
      · have hi := ih mgr (fun f args m hf => hrec f args m
          (by simp only [List.length_cons]; omega))
        cases h1 : Logger.recurseLogLoop vsn env self recur input_format firstValue rest tl
            mgr with
        | error e =>
          intro h
          simp only [Except.error.injEq] at h
          rw [h] at h1
          exact hi h1
        | ok v => intro h; cases h

theorem recurseLogFuel_ne_outOfFuel (vsn : Vsnprintf) (env : Env) (self : Logger) (n : Nat) :
    ∀ (format : List Char) (args : List Arg) (mgr : LogManager), format.length < n →
      Logger.recurseLogFuel vsn env self n format args mgr ≠ .error .outOfFuel := by
  induction n with
  | zero => intro format args mgr h; omega
  | succ n ih =>
    intro format args mgr hn
    cases args with
    | nil =>
      simp only [Logger.recurseLogFuel]
      cases hc : cstring format with
      | error e =>
        intro h
        simp only [Except.error.injEq] at h
        rw [h] at hc
        exact cstring_ne_outOfFuel _ hc
      | ok s => intro h; cases h
    | cons a rest =>
      simp only [Logger.recurseLogFuel]
      apply recurseLogLoop_ne_outOfFuel
      intro f args1 m1 hf
      exact ih f args1 m1 (by omega)

/-- On a text that starts with a run of decimal digits `getThreadId` returns the number the
run writes when it is below 2^64 and lets the `std::out_of_range` of `stoull` through when
it is not; on a text that starts with neither white space, a sign nor a digit it returns
the sentinel. -/
theorem getThreadId_digits_or_no_digits (ds rest s : List Char)
    (hne : ds ≠ []) (hds : ds.all isDecimalDigit = true)
    (hrest : rest.head?.bind digitVal = none)
    (hs : s = [] ∨ ∃ c tl, s = c :: tl ∧ isSpaceChar c = false ∧ c ≠ '-' ∧ c ≠ '+' ∧
      digitVal c = none) :
    (decimalValue ds < 2 ^ 64 → LogManager.getThreadId (ds ++ rest) = .ok (decimalValue ds)) ∧
    (2 ^ 64 ≤ decimalValue ds → LogManager.getThreadId (ds ++ rest) = .error .outOfRange) ∧
    LogManager.getThreadId s = .ok (2 ^ 64 - 1) := by
  refine ⟨?_, ?_, ?_⟩
  · intro h
    have hlt : ¬ (2 ^ 64 ≤ decimalValue ds) := by omega
    simp only [LogManager.getThreadId, stoull_digits ds rest hne hds hrest, hlt, if_false]
  · intro h
    simp only [LogManager.getThreadId, stoull_digits ds rest hne hds hrest, h, if_true]
  · simp only [LogManager.getThreadId, stoull_no_digits s hs]

/-- Twenty nines, a text no thread identity has: `std::out_of_range` is not caught. -/
theorem getThreadId_out_of_range_not_caught :
    LogManager.getThreadId "99999999999999999999".toList = .error .outOfRange := rfl

/-- On every array `recurseLog` is total: the budget of nested calls it is run with, the length of
the array plus one, is never used up, and a larger one changes nothing. The inner loop
stops at the first character that is the NUL or a conversion character; the nested call
is on the array after that character, shorter than the array scanned, with the same
arguments after `%%` and without the first one otherwise. -/
theorem recurseLog_total_on_array (vsn : Vsnprintf) (env : Env) (self : Logger)
    (format : List Char) (args : List Arg) (mgr : LogManager) :
    Logger.recurseLog vsn env self format args mgr ≠ .error .outOfFuel ∧
    (∀ n, format.length < n →
      Logger.recurseLogFuel vsn env self n format args mgr =
        Logger.recurseLog vsn env self format args mgr) ∧
    (∀ (tl acc fmt ptr : List Char) (ended : Bool),
      Logger.scanSpecifier tl acc = .ok (fmt, ended, ptr) →
      (ptr.drop 1).length < tl.length ∧
      ∃ before c rest, tl = before ++ c :: rest ∧ ptr = c :: rest ∧
        before.all isFlagChar = true ∧
        ((ended = true ∧ c = NUL ∧ fmt = acc ++ before) ∨
         (ended = false ∧ isConversion c = true ∧ fmt = acc ++ before ++ [c]))) ∧
    (∀ (firstValue : Arg) (rest : List Arg) (text flags tail : List Char) (conv : Char),
      text.all isLiteral = true → flags.all isFlagChar = true → isConversion conv = true →
      Logger.recurseLog vsn env self (text ++ '%' :: (flags ++ conv :: tail))
          (firstValue :: rest) mgr =
        prepend text
          (if '%' :: flags ++ [conv] = ['%', '%'] then
            prepend ['%'] (Logger.recurseLog vsn env self tail (firstValue :: rest) mgr)
          else
            match Logger.formatValue vsn ('%' :: flags ++ [conv]) firstValue with
            | .error e => .error e
            | .ok s => prepend s (Logger.recurseLog vsn env self tail rest mgr))) := by
  refine ⟨?_, ?_, ?_, ?_⟩
  · exact recurseLogFuel_ne_outOfFuel vsn env self _ format args mgr (by omega)
  · intro n hn
    exact recurseLogFuel_stable vsn env self n _ format args mgr hn (by omega)
  · intro tl acc fmt ptr ended h
    exact ⟨scanSpecifier_length tl acc fmt ptr ended h,
      scanSpecifier_stops_at_first tl acc fmt ptr ended h⟩
  · intro firstValue rest text flags tail conv ht hf hc
    rw [recurseLog_cons, recurseLogLoop_literal _ _ _ _ _ _ _ _ _ _ ht,
      recurseLogLoop_spec _ _ _ _ _ _ _ _ _ _ _ hf hc]


/-! ## The claims -/

/-- C1: for a template `L0 s1 L1 ... sn Ln` of literal text without a percent sign
around terminated specifiers other than `%%`, and exactly `n >= 1` arguments, `recurseLog`
returns `L0 ++ render(s1,a1) ++ L1 ++ ... ++ render(sn,an) ++ Ln` and leaves the manager as
it was; a rendering that fails makes the call fail the same way. -/
theorem C1_recurseLog_renders_each_specifier (vsn : Vsnprintf) (env : Env) (self : Logger)
    (text : List Char) (segs : List Segment) (args : List Arg) (junk : List Char)
    (mgr : LogManager)
    (htext : text.all isLiteral = true) (hsegs : segs.all Segment.wellFormed = true)
    (hargs : args.length = segs.length) :
    Logger.recurseLog vsn env self (text ++ sourceOf segs ++ NUL :: junk) args mgr =
      (match renderAll vsn segs args with
        | .error e => .error e
        | .ok r => .ok (text ++ r, mgr)) := by
  have h := recurseLog_segments vsn env self segs text args [] junk mgr htext hsegs hargs
    (by simp)
  simpa using h

/-- C1, on the examples of the specification and on the call of `main.cpp`. -/
theorem C1_recurseLog_renders_each_specifier_witness :
    Logger.recurseLog cprintf sampleEnv sampleLogger (lit "%d and %d")
        [.prim (.int 1), .prim (.int 2)] LogManager.init =
      .ok ("1 and 2".toList, LogManager.init) ∧
    Logger.recurseLog cprintf sampleEnv sampleLogger (lit "%d") [.prim (.int 42)]
        LogManager.init = .ok ("42".toList, LogManager.init) ∧
    Logger.recurseLog cprintf sampleEnv sampleLogger (lit "Error receiving packet: %d")
        [.prim (.int 100)] LogManager.init =
      .ok ("Error receiving packet: 100".toList, LogManager.init) :=
  ⟨C1_recurseLog_renders_each_specifier cprintf sampleEnv sampleLogger []
      [⟨[], 'd', " and ".toList⟩, ⟨[], 'd', []⟩] [.prim (.int 1), .prim (.int 2)] []
      LogManager.init (by decide) (by decide) (by decide),
   C1_recurseLog_renders_each_specifier cprintf sampleEnv sampleLogger []
      [⟨[], 'd', []⟩] [.prim (.int 42)] [] LogManager.init
      (by decide) (by decide) (by decide),
   C1_recurseLog_renders_each_specifier cprintf sampleEnv sampleLogger
      "Error receiving packet: ".toList [⟨[], 'd', []⟩] [.prim (.int 100)] []
      LogManager.init (by decide) (by decide) (by decide)⟩

/-- C2: at a `%%` met while an argument is still to be consumed, `recurseLog` emits one
percent sign and keeps the arguments (`"%% %d"` with 5 yields `"% 5"`); after the last
argument the terminal overload returns the rest of the template as it is, so `"%d%%"` with
50 yields `"50%%"`, where `printf` itself prints `"50%"`. -/
theorem C2_percent_after_last_argument_kept_double (vsn : Vsnprintf) (env : Env)
    (self : Logger) (mgr : LogManager) (tail : List Char) (firstValue : Arg)
    (rest : List Arg) :
    Logger.recurseLog cprintf env self (lit "%d%%") [.prim (.int 50)] mgr =
      .ok ("50%%".toList, mgr) ∧
    cprintf "%d%%".toList [.int 50] = some "50%".toList ∧
    Logger.recurseLog cprintf env self (lit "%% %d") [.prim (.int 5)] mgr =
      .ok ("% 5".toList, mgr) ∧
    Logger.recurseLog vsn env self ('%' :: '%' :: tail) (firstValue :: rest) mgr =
      prepend ['%'] (Logger.recurseLog vsn env self tail (firstValue :: rest) mgr) := by
  refine ⟨rfl, rfl, rfl, ?_⟩
  rw [recurseLog_cons]
  have h := recurseLogLoop_spec vsn env self (Logger.recurseLog vsn env self)
    ('%' :: '%' :: tail) firstValue rest [] '%' tail mgr rfl rfl
  simpa using h

/-- C3 (as amended): for a template `L0 s1 L1 ... sn Ln` followed by further specifiers
`s(n+1) L(n+1) ... sm Lm`, with `n` arguments, `recurseLog` leaves the manager as it was:
no line is written for the missing arguments. It returns
`L0 ++ render(s1,a1) ++ ... ++ render(sn,an) ++ Ln` followed by the rest of the template as
it is written. -/
theorem C3_missing_arguments_are_not_reported (vsn : Vsnprintf) (env : Env) (self : Logger)
    (text : List Char) (segs unmatched : List Segment) (args : List Arg) (junk : List Char)
    (mgr : LogManager)
    (htext : text.all isLiteral = true) (hsegs : segs.all Segment.wellFormed = true)
    (hun : unmatched.all Segment.wellFormed = true) (hargs : args.length = segs.length) :
    Logger.recurseLog vsn env self
        (text ++ sourceOf segs ++ sourceOf unmatched ++ NUL :: junk) args mgr =
      (match renderAll vsn segs args with
        | .error e => .error e
        | .ok r => .ok (text ++ r ++ sourceOf unmatched, mgr)) :=
  recurseLog_segments vsn env self segs text args (sourceOf unmatched) junk mgr htext hsegs
    hargs (sourceOf_ne_NUL unmatched hun)

/-- C3 (as amended), on `"<%d> and %d"` with the single argument 1. -/
theorem C3_missing_arguments_are_not_reported_witness :
    Logger.recurseLog cprintf sampleEnv sampleLogger (lit "<%d> and %d") [.prim (.int 1)]
        LogManager.init = .ok ("<1> and %d".toList, LogManager.init) :=
  C3_missing_arguments_are_not_reported cprintf sampleEnv sampleLogger ['<']
    [⟨[], 'd', "> and ".toList⟩] [⟨[], 'd', []⟩] [.prim (.int 1)] [] LogManager.init
    (by decide) (by decide) (by decide) (by decide)

/-- C3, as stated, fails on `"%d and %d"` with the single argument 1 while ERROR is
admitted: the call returns `"1 and %d"` and the manager it leaves is the one it found, its
console still empty. -/
theorem C3_counterexample :
    LogManager.init.isLoggable .LL_ERROR = true ∧
    Logger.recurseLog cprintf sampleEnv sampleLogger (lit "%d and %d") [.prim (.int 1)]
        LogManager.init = .ok ("1 and %d".toList, LogManager.init) ∧
    LogManager.init.console = [] :=
  ⟨rfl, rfl, rfl⟩

/-- C4: on `"abc%"` with one argument, `recurseLog` does not return the text `"abc"`
rendered before the cut specifier: after the error is logged the loop is left by `break`,
the cut specifier goes to `format` with the argument, and the nested call starts one
character after the terminating NUL, a read past the array of the template. -/
theorem C4_unterminated_specifier_reads_past_the_end (vsn : Vsnprintf) (env : Env)
    (self : Logger) (a : Arg) (mgr : LogManager) :
    ∃ e, Logger.recurseLog vsn env self (lit "abc%") [a] mgr = .error e := by
  have hl : lit "abc%" = "abc".toList ++ ('%' :: ([] ++ NUL :: [])) := by decide
  have hlit : "abc".toList.all isLiteral = true := by decide
  rw [recurseLog_cons, hl, recurseLogLoop_literal _ _ _ _ _ _ _ _ _ _ hlit]
  simp only [Logger.recurseLogLoop, Logger.scanSpecifier, List.nil_append, if_true]
  have hp : ('%' : Char) ≠ NUL := by decide
  have hpp : (['%'] : List Char) ≠ ['%', '%'] := by decide
  simp only [hp, if_false, if_true, hpp, List.drop_succ_cons, List.drop_zero]
  cases mgr.writeLog env self.m_name .LL_ERROR
      (Logger.invalidSpecifier ['%'] ("abc".toList ++ ['%', NUL])) with
  | error e => exact ⟨e, rfl⟩
  | ok mgr1 =>
    cases Logger.formatValue vsn ['%'] a with
    | error e => exact ⟨e, rfl⟩
    | ok s => exact ⟨.outOfBounds, rfl⟩

/-- C5 (as amended): `recurseLog` renders a boolean argument as it renders the C string
`"true"` or `"false"` in its place, under the specifier as the template writes it; under
`%s` that is the text itself. -/
theorem C5_bool_is_passed_as_text_under_the_written_specifier (vsn : Vsnprintf) (env : Env)
    (self : Logger) (format : List Char) (args : List Arg) (mgr : LogManager) :
    Logger.recurseLog vsn env self format (args.map boolAsText) mgr =
      Logger.recurseLog vsn env self format args mgr ∧
    Logger.recurseLog cprintf env self (lit "%s") [.bool true] mgr =
      .ok ("true".toList, mgr) ∧
    Logger.recurseLog cprintf env self (lit "%s") [.bool false] mgr =
      .ok ("false".toList, mgr) :=
  ⟨recurseLogFuel_boolAsText vsn env self _ format args mgr, rfl, rfl⟩

/-- C5, as stated, fails on `"%d"` with `true`: the C string `"true"` goes to `vsnprintf`
under `%d`, a conversion for an `int`, and the text `"true"` is not what comes back. -/
theorem C5_counterexample :
    Logger.formatValue cprintf "%d".toList (.bool true) =
      Logger.format cprintf "%d".toList [.cstr "true".toList] ∧
    Logger.recurseLog cprintf sampleEnv sampleLogger (lit "%d") [.bool true]
        LogManager.init = .error .formatError ∧
    Logger.recurseLog cprintf sampleEnv sampleLogger (lit "%d") [.bool true]
        LogManager.init ≠ .ok ("true".toList, LogManager.init) :=
  ⟨rfl, rfl, by intro h; cases h⟩

/-- C6: for a template made of literal characters and `%%` sequences, `Logger::log`
without arguments at an admitted level hands `writeLog` the message in which each `%%` is
one percent sign and every other character is unchanged. -/
theorem C6_log_without_arguments_collapses_percent (env : Env) (self : Logger)
    (level : LogLevel) (ps : List Piece) (junk : List Char) (mgr : LogManager)
    (hps : ps.all Piece.wellFormed = true) (hadm : mgr.isLoggable level = true) :
    Logger.log cprintf env self level (plainSource ps ++ NUL :: junk) [] mgr =
      mgr.writeLog env self.m_name level (plainOutput ps) := by
  simp only [Logger.log, hadm, Bool.not_true, Bool.false_eq_true, if_false,
    cstring_append _ junk (plainSource_ne_NUL ps hps), Logger.format, cprintf,
    vformat_plain ps hps, c_str_eq_self _ (plainOutput_ne_NUL ps hps)]

/-- C6, on `"100%% done"`: the message is `"100% done"`. -/
theorem C6_log_without_arguments_collapses_percent_witness :
    Logger.log cprintf sampleEnv sampleLogger .LL_INFO (lit "100%% done") []
        LogManager.init =
      LogManager.init.writeLog sampleEnv sampleLogger.m_name .LL_INFO "100% done".toList :=
  C6_log_without_arguments_collapses_percent sampleEnv sampleLogger .LL_INFO
    [.text '1', .text '0', .text '0', .percent, .text ' ', .text 'd', .text 'o', .text 'n',
      .text 'e'] [] LogManager.init (by decide) (by decide)

/-- C7: on `"%d%%"` the two arguments (1, 2) give `"1%"` and the first argument alone
gives `"1%%"`: with an argument left over the variadic overload scans the text after the
last specifier, without one the terminal overload returns it as it is. Neither call
writes a line. -/
theorem C7_extra_argument_changes_text_after_last_specifier (env : Env) (self : Logger)
    (mgr : LogManager) :
    Logger.recurseLog cprintf env self (lit "%d%%") [.prim (.int 1), .prim (.int 2)] mgr =
      .ok ("1%".toList, mgr) ∧
    Logger.recurseLog cprintf env self (lit "%d%%") [.prim (.int 1)] mgr =
      .ok ("1%%".toList, mgr) :=
  ⟨rfl, rfl⟩

/-- C8: after `setLevel(T)`, `isLoggable(L)` holds exactly when the number of `L` is at
most the number of `T`, the numbers being NONE = -1, ERROR = 0, WARNING = 1, INFO = 2,
DEBUG = 3; the manager as constructed, with threshold DEBUG, admits every severity. -/
theorem C8_isLoggable_iff_level_le_threshold (mgr : LogManager) (L T : LogLevel) :
    ((mgr.setLevel T).isLoggable L = true ↔ L.toInt ≤ T.toInt) ∧
    LogManager.init.isLoggable L = true ∧
    LogManager.init.m_logLevel = .LL_DEBUG ∧
    LogLevel.LL_NONE.toInt = -1 ∧ LogLevel.LL_ERROR.toInt = 0 ∧
    LogLevel.LL_WARNING.toInt = 1 ∧ LogLevel.LL_INFO.toInt = 2 ∧
    LogLevel.LL_DEBUG.toInt = 3 := by
  refine ⟨?_, ?_, rfl, rfl, rfl, rfl, rfl, rfl⟩
  · simp [LogManager.isLoggable, LogManager.setLevel]
  · cases L <;> decide

/-- C9 (as amended): with the threshold NONE, `isLoggable(L)` is false for ERROR, WARNING,
INFO and DEBUG, and true for NONE itself; `writeLog` and `Logger::log` at a severity other
than NONE leave the manager as it was. -/
theorem C9_threshold_NONE_admits_only_NONE (mgr : LogManager)
    (hT : mgr.m_logLevel = .LL_NONE) :
    (∀ L : LogLevel, mgr.isLoggable L = true ↔ L = .LL_NONE) ∧
    (∀ (env : Env) (name : List Char) (L : LogLevel) (message : List Char),
      L ≠ .LL_NONE → mgr.writeLog env name L message = .ok mgr) ∧
    (∀ (vsn : Vsnprintf) (env : Env) (self : Logger) (L : LogLevel) (fmt : List Char)
      (args : List Arg), L ≠ .LL_NONE → Logger.log vsn env self L fmt args mgr = .ok mgr) := by
  have hadm : ∀ L : LogLevel, mgr.isLoggable L = true ↔ L = .LL_NONE := by
    intro L
    cases L <;> simp [LogManager.isLoggable, hT, LogLevel.toInt]
  refine ⟨hadm, ?_, ?_⟩
  · intro env name L message hL
    have : mgr.isLoggable L = false := by
      cases h : mgr.isLoggable L with
      | false => rfl
      | true => exact absurd ((hadm L).mp h) hL
    simp [LogManager.writeLog, this]
  · intro vsn env self L fmt args hL
    have : mgr.isLoggable L = false := by
      cases h : mgr.isLoggable L with
      | false => rfl
      | true => exact absurd ((hadm L).mp h) hL
    simp [Logger.log, this]

/-- C9 (as amended), on the manager as constructed after `setLevel(LL_NONE)`. -/
theorem C9_threshold_NONE_admits_only_NONE_witness :
    (LogManager.init.setLevel .LL_NONE).m_logLevel = .LL_NONE ∧
    (LogManager.init.setLevel .LL_NONE).isLoggable .LL_ERROR = false ∧
    (LogManager.init.setLevel .LL_NONE).writeLog sampleEnv "MyClass".toList .LL_ERROR
      "hi".toList = .ok (LogManager.init.setLevel .LL_NONE) :=
  ⟨rfl, rfl,
    (C9_threshold_NONE_admits_only_NONE (LogManager.init.setLevel .LL_NONE) rfl).2.1
      sampleEnv "MyClass".toList .LL_ERROR "hi".toList (by decide)⟩

/-- C9, as stated, fails for the severity NONE: with the threshold NONE, `isLoggable`
admits NONE and `writeLog` at NONE prints a line on the console. -/
theorem C9_counterexample :
    (LogManager.init.setLevel .LL_NONE).isLoggable .LL_NONE = true ∧
    (LogManager.init.setLevel .LL_NONE).writeLog sampleEnv "MyClass".toList .LL_NONE
      "hi".toList =
      .ok { m_logLevel := .LL_NONE, m_logFile := none,
            console := "[2024/03/05 07:08:09] [MyClass ] [000225C1] [DEBUG   ] hi".toList ++
              [LF] } :=
  ⟨rfl, rfl⟩

/-- C10 (as amended): an admitted `writeLog(name, level, message)`, with `name` and
`message` free of NUL and a thread identity that `getThreadId` converts to `id`, appends to
the console, and to the file if one is open, the line
`[timestamp] [N] [tid] [S] message` and a line feed, where the second field `N` is the
logger name and the fourth field `S` the severity name, each cut or filled with blanks to
exactly 8 characters, and `tid` is the `%8.8llX` rendering of the identity. -/
theorem C10_writeLog_line_name_then_thread_then_severity (env : Env) (mgr : LogManager)
    (name : List Char) (level : LogLevel) (message : List Char) (id : Nat)
    (hadm : mgr.isLoggable level = true)
    (hname : name.all (fun c => c != NUL) = true)
    (hmsg : message.all (fun c => c != NUL) = true)
    (hid : LogManager.getThreadId env.thread_text = .ok id) :
    ∃ timestamp : List Char,
      LogManager.currentLogDate env LogManager.dateFormat = .ok timestamp ∧
      mgr.writeLog env name level message =
        .ok { mgr with
              console := mgr.console ++
                composeLine timestamp (pad8 name)
                  (fmtUnsigned { width := 8, prec := some 8 } 16 true []
                    (id % 2 ^ env.ulong_bits % 2 ^ 64))
                  (pad8 (LogManager.strLevel level)) message
              m_logFile := mgr.m_logFile.map (fun f => f ++
                composeLine timestamp (pad8 name)
                  (fmtUnsigned { width := 8, prec := some 8 } 16 true []
                    (id % 2 ^ env.ulong_bits % 2 ^ 64))
                  (pad8 (LogManager.strLevel level)) message) } ∧
      (pad8 name).length = 8 ∧ (pad8 (LogManager.strLevel level)).length = 8 := by
  obtain ⟨ts, hts⟩ := currentLogDate_dateFormat env
  have hn : c_str name = name :=
    c_str_eq_self name (fun c hc => by simpa using (List.all_eq_true.mp hname) c hc)
  have hm : c_str message = message :=
    c_str_eq_self message (fun c hc => by simpa using (List.all_eq_true.mp hmsg) c hc)
  refine ⟨ts, hts, ?_, pad8_length _, pad8_length _⟩
  simp only [LogManager.writeLog, hadm, Bool.not_true, Bool.false_eq_true, if_false, hts, hid,
    currentLogDate_c_str env _ ts hts, hn, hm, strLevel_c_str, cprintf_logFormat,
    fmtString_left8, fmtString_plain]

/-- C10 (as amended), on the call of `main.cpp` at the sample clock and thread. -/
theorem C10_writeLog_line_name_then_thread_then_severity_witness :
    ∃ timestamp : List Char,
      LogManager.currentLogDate sampleEnv LogManager.dateFormat = .ok timestamp ∧
      LogManager.init.writeLog sampleEnv "MyClass".toList .LL_ERROR "hi".toList =
        .ok { LogManager.init with
              console := LogManager.init.console ++
                composeLine timestamp (pad8 "MyClass".toList)
                  (fmtUnsigned { width := 8, prec := some 8 } 16 true []
                    (140737 % 2 ^ sampleEnv.ulong_bits % 2 ^ 64))
                  (pad8 (LogManager.strLevel .LL_ERROR)) "hi".toList
              m_logFile := LogManager.init.m_logFile.map (fun f => f ++
                composeLine timestamp (pad8 "MyClass".toList)
                  (fmtUnsigned { width := 8, prec := some 8 } 16 true []
                    (140737 % 2 ^ sampleEnv.ulong_bits % 2 ^ 64))
                  (pad8 (LogManager.strLevel .LL_ERROR)) "hi".toList) } ∧
      (pad8 "MyClass".toList).length = 8 ∧
      (pad8 (LogManager.strLevel .LL_ERROR)).length = 8 :=
  C10_writeLog_line_name_then_thread_then_severity sampleEnv LogManager.init
    "MyClass".toList .LL_ERROR "hi".toList 140737 (by decide) (by decide) (by decide) rfl

/-- C10, as stated, fails on the call of `main.cpp`: the line on the console has the
logger name in the second field and the severity name in the fourth, not the line with the
severity second and the name fourth that the claim composes. -/
theorem C10_counterexample :
    LogManager.init.isLoggable .LL_ERROR = true ∧
    LogManager.init.writeLog sampleEnv "MyClass".toList .LL_ERROR "hi".toList =
      .ok { m_logLevel := .LL_DEBUG, m_logFile := none,
            console := composeLine "2024/03/05 07:08:09".toList "MyClass ".toList
              "000225C1".toList "ERROR   ".toList "hi".toList } ∧
    composeLine "2024/03/05 07:08:09".toList "MyClass ".toList "000225C1".toList
        "ERROR   ".toList "hi".toList ≠
      composeLine "2024/03/05 07:08:09".toList "ERROR   ".toList "000225C1".toList
        "MyClass ".toList "hi".toList :=
  ⟨rfl, rfl, by decide⟩

/-- C11 (as amended): in the line an admitted `writeLog` composes, the thread-id field is
made of the digits `0-9`, `A-F` and has at least 8 of them: exactly 8 when the identity,
after the cast to `unsigned long int`, is below 2^32, which is every identity where
`unsigned long int` has at most 32 bits, and more than 8 otherwise. -/
theorem C11_thread_id_field_has_at_least_8_hex_digits (env : Env) (mgr : LogManager)
    (name : List Char) (level : LogLevel) (message : List Char) (id : Nat)
    (hadm : mgr.isLoggable level = true)
    (hid : LogManager.getThreadId env.thread_text = .ok id) :
    (∃ timestamp : List Char,
      mgr.writeLog env name level message =
        .ok { mgr with
              console := mgr.console ++
                composeLine timestamp (pad8 (c_str name)) (threadIdField env id)
                  (pad8 (LogManager.strLevel level)) (c_str message)
              m_logFile := mgr.m_logFile.map (fun f => f ++
                composeLine timestamp (pad8 (c_str name)) (threadIdField env id)
                  (pad8 (LogManager.strLevel level)) (c_str message)) }) ∧
    (∀ c ∈ threadIdField env id, isUpperHexDigit c = true) ∧
    8 ≤ (threadIdField env id).length ∧
    ((threadIdField env id).length = 8 ↔ id % 2 ^ env.ulong_bits % 2 ^ 64 < 2 ^ 32) ∧
    (env.ulong_bits ≤ 32 → (threadIdField env id).length = 8) := by
  obtain ⟨ts, _, hw⟩ := writeLog_admitted env mgr name level message id hadm hid
  refine ⟨⟨ts, hw⟩, threadIdField_hex env id, (threadIdField_length env id).1,
    (threadIdField_length env id).2, ?_⟩
  intro hbits
  rw [(threadIdField_length env id).2]
  have h1 : id % 2 ^ env.ulong_bits < 2 ^ env.ulong_bits := Nat.mod_lt _ (by positivity)
  have h2 : 2 ^ env.ulong_bits ≤ 2 ^ 32 := Nat.pow_le_pow_right (by omega) hbits
  have h3 : id % 2 ^ env.ulong_bits % 2 ^ 64 ≤ id % 2 ^ env.ulong_bits := Nat.mod_le _ _
  omega

/-- C11 (as amended), on the sample clock and thread, whose identity is below 2^32. -/
theorem C11_thread_id_field_has_at_least_8_hex_digits_witness :
    threadIdField sampleEnv 140737 = "000225C1".toList ∧
    (threadIdField sampleEnv 140737).length = 8 :=
  ⟨rfl,
    (C11_thread_id_field_has_at_least_8_hex_digits sampleEnv LogManager.init
      "MyClass".toList .LL_ERROR "hi".toList 140737 (by decide) rfl).2.2.2.1.mpr
      (by decide)⟩

/-- C11, as stated, fails where `unsigned long int` has 64 bits: the identity
140737353987904 of a Linux thread gives the 12 digits `7FFFF7FDB740`, and the sentinel
2^64 - 1 gives 16 digits. -/
theorem C11_counterexample :
    LogManager.getThreadId linuxEnv.thread_text = .ok 140737353987904 ∧
    LogManager.init.writeLog linuxEnv "MyClass".toList .LL_ERROR "hi".toList =
      .ok { m_logLevel := .LL_DEBUG, m_logFile := none,
            console := composeLine "2024/03/05 07:08:09".toList "MyClass ".toList
              "7FFFF7FDB740".toList "ERROR   ".toList "hi".toList } ∧
    (threadIdField linuxEnv 140737353987904).length = 12 ∧
    threadIdField linuxEnv (2 ^ 64 - 1) = "FFFFFFFFFFFFFFFF".toList :=
  ⟨rfl, rfl, rfl, rfl⟩

/-- C13: `writeLog` at a level the threshold does not admit returns the manager it was
given: threshold, console, file open or closed and file contents are unchanged. -/
theorem C13_writeLog_below_threshold_is_a_no_op (env : Env) (mgr : LogManager)
    (name : List Char) (level : LogLevel) (message : List Char)
    (h : mgr.isLoggable level = false) :
    ∃ mgr1, mgr.writeLog env name level message = .ok mgr1 ∧
      mgr1.m_logLevel = mgr.m_logLevel ∧ mgr1.console = mgr.console ∧
      mgr1.m_logFile = mgr.m_logFile ∧ mgr1 = mgr :=
  ⟨mgr, writeLog_not_admitted env mgr name level message h, rfl, rfl, rfl, rfl⟩

/-- C13, with the threshold WARNING, a file open and a call at INFO. -/
theorem C13_writeLog_below_threshold_is_a_no_op_witness :
    LogManager.writeLog sampleEnv
        { m_logLevel := .LL_WARNING, m_logFile := some "old".toList, console := "seen".toList }
        "MyClass".toList .LL_INFO "hi".toList =
      .ok { m_logLevel := .LL_WARNING, m_logFile := some "old".toList,
            console := "seen".toList } := by
  obtain ⟨mgr1, h1, _, _, _, h2⟩ := C13_writeLog_below_threshold_is_a_no_op sampleEnv
    { m_logLevel := .LL_WARNING, m_logFile := some "old".toList, console := "seen".toList }
    "MyClass".toList .LL_INFO "hi".toList (by decide)
  rw [h1, h2]

/-- C14: an admitted `writeLog`, on a thread whose identity `getThreadId` converts,
appends one composed line to the console; with a file open the same line is appended to
the file, with none the file stays closed; the threshold is unchanged. -/
theorem C14_writeLog_appends_one_line_to_console_and_open_file (env : Env)
    (mgr : LogManager) (name : List Char) (level : LogLevel) (message : List Char) (id : Nat)
    (hadm : mgr.isLoggable level = true)
    (hid : LogManager.getThreadId env.thread_text = .ok id) :
    ∃ (timestamp : List Char) (mgr1 : LogManager),
      mgr.writeLog env name level message = .ok mgr1 ∧
      mgr1.console = mgr.console ++
        composeLine timestamp (pad8 (c_str name)) (threadIdField env id)
          (pad8 (LogManager.strLevel level)) (c_str message) ∧
      (∀ f, mgr.m_logFile = some f → mgr1.m_logFile = some (f ++
        composeLine timestamp (pad8 (c_str name)) (threadIdField env id)
          (pad8 (LogManager.strLevel level)) (c_str message))) ∧
      (mgr.m_logFile = none → mgr1.m_logFile = none) ∧
      mgr1.m_logLevel = mgr.m_logLevel := by
  obtain ⟨ts, _, hw⟩ := writeLog_admitted env mgr name level message id hadm hid
  refine ⟨ts, _, hw, rfl, ?_, ?_, rfl⟩
  · intro f hf
    simp [hf]
  · intro hf
    simp [hf]

/-- C14, with a file open that holds `old`: the line of the call of `main.cpp` follows
`seen` on the console and `old` in the file. -/
theorem C14_writeLog_appends_one_line_to_console_and_open_file_witness :
    ∃ (timestamp : List Char) (mgr1 : LogManager),
      LogManager.writeLog sampleEnv
          { m_logLevel := .LL_DEBUG, m_logFile := some "old".toList,
            console := "seen".toList }
          "MyClass".toList .LL_ERROR "hi".toList = .ok mgr1 ∧
      mgr1.console = "seen".toList ++
        composeLine timestamp (pad8 (c_str "MyClass".toList)) (threadIdField sampleEnv 140737)
          (pad8 (LogManager.strLevel .LL_ERROR)) (c_str "hi".toList) ∧
      (∀ f, some "old".toList = some f → mgr1.m_logFile = some (f ++
        composeLine timestamp (pad8 (c_str "MyClass".toList)) (threadIdField sampleEnv 140737)
          (pad8 (LogManager.strLevel .LL_ERROR)) (c_str "hi".toList))) ∧
      (some "old".toList = none → mgr1.m_logFile = none) ∧
      mgr1.m_logLevel = .LL_DEBUG :=
  C14_writeLog_appends_one_line_to_console_and_open_file sampleEnv
    { m_logLevel := .LL_DEBUG, m_logFile := some "old".toList, console := "seen".toList }
    "MyClass".toList .LL_ERROR "hi".toList 140737 (by decide) rfl

/-- C17: the severity name `writeLog` puts in the line is `ERROR` for ERROR, `WARNING`
for WARNING, `INFO` for INFO, and `DEBUG` for DEBUG and for NONE, the only other
enumerator; it is the fourth field of the line, cut or filled to 8 characters. -/
theorem C17_severity_name_defaults_to_DEBUG (env : Env) (mgr : LogManager)
    (name : List Char) (level : LogLevel) (message : List Char) (id : Nat)
    (hadm : mgr.isLoggable level = true)
    (hid : LogManager.getThreadId env.thread_text = .ok id) :
    LogManager.strLevel level = severityName level ∧
    ∃ timestamp : List Char,
      mgr.writeLog env name level message =
        .ok { mgr with
              console := mgr.console ++
                composeLine timestamp (pad8 (c_str name)) (threadIdField env id)
                  (pad8 (severityName level)) (c_str message)
              m_logFile := mgr.m_logFile.map (fun f => f ++
                composeLine timestamp (pad8 (c_str name)) (threadIdField env id)
                  (pad8 (severityName level)) (c_str message)) } := by
  have hs : LogManager.strLevel level = severityName level := by
    cases level <;> rfl
  obtain ⟨ts, _, hw⟩ := writeLog_admitted env mgr name level message id hadm hid
  rw [hs] at hw
  exact ⟨hs, ts, hw⟩

/-- C17, on a call at NONE, which every threshold admits: the line says `DEBUG`. -/
theorem C17_severity_name_defaults_to_DEBUG_witness :
    LogManager.strLevel .LL_NONE = "DEBUG".toList ∧
    LogManager.init.writeLog sampleEnv "MyClass".toList .LL_NONE "hi".toList =
      .ok { m_logLevel := .LL_DEBUG, m_logFile := none,
            console := composeLine "2024/03/05 07:08:09".toList "MyClass ".toList
              "000225C1".toList "DEBUG   ".toList "hi".toList } :=
  ⟨(C17_severity_name_defaults_to_DEBUG sampleEnv LogManager.init "MyClass".toList .LL_NONE
      "hi".toList 140737 (by decide) rfl).1, rfl⟩

/-- C15: for a broken-down time in range, on a thread whose identity `getThreadId`
converts, `open(basePath)` returns after `m_logFile.open` on the name
`basePath ++ "-" ++ YYYY-MM-DD hh-mm-ss ++ ".log"`, the year `tm_year + 1900` in four and
`tm_mon + 1`, day, hour, minute and second in two zero-padded decimal digits each, 19
characters in all; when the directory of that name exists the stream is open on it. -/
theorem C15_open_names_the_file_by_base_path_and_stamp (env : Env) (what name : List Char)
    (w : World) (id : Nat) (htm : env.tm.inRange = true)
    (hid : LogManager.getThreadId env.thread_text = .ok id) :
    (fileStamp env.tm).length = 19 ∧
    ∃ w1 : World,
      LogManager.open env what name w =
        .ok (LogManager.openStream (name ++ ['-'] ++ fileStamp env.tm ++ ".log".toList) w1) ∧
      (w.disk.hasDirectory
          (Path.parent_path (name ++ ['-'] ++ fileStamp env.tm ++ ".log".toList)) = true →
        (LogManager.openStream (name ++ ['-'] ++ fileStamp env.tm ++ ".log".toList)
            w1).openPath = some (name ++ ['-'] ++ fileStamp env.tm ++ ".log".toList) ∧
        (LogManager.openStream (name ++ ['-'] ++ fileStamp env.tm ++ ".log".toList)
            w1).mgr.m_logFile = some []) := by
  refine ⟨fileStamp_length env.tm, ?_⟩
  have hdate := currentLogDate_fileDateFormat env htm
  have hopen : ∀ (w1 : World),
      w1.disk.dirs = w.disk.dirs →
      w.disk.hasDirectory
          (Path.parent_path (name ++ ['-'] ++ fileStamp env.tm ++ ".log".toList)) = true →
        (LogManager.openStream (name ++ ['-'] ++ fileStamp env.tm ++ ".log".toList)
            w1).openPath = some (name ++ ['-'] ++ fileStamp env.tm ++ ".log".toList) ∧
        (LogManager.openStream (name ++ ['-'] ++ fileStamp env.tm ++ ".log".toList)
            w1).mgr.m_logFile = some [] := by
    intro w1 hd hdir
    have hdir1 : w1.disk.hasDirectory
        (Path.parent_path (name ++ ['-'] ++ fileStamp env.tm ++ ".log".toList)) = true := by
      simpa only [Disk.hasDirectory, hd] using hdir
    have hne := filename_log_ne_nil (name ++ ['-'] ++ fileStamp env.tm)
    have hcond : (w1.disk.hasDirectory
        (Path.parent_path (name ++ ['-'] ++ fileStamp env.tm ++ ".log".toList)) &&
        Path.filename (name ++ ['-'] ++ fileStamp env.tm ++ ".log".toList) != []) = true := by
      rw [hdir1, Bool.true_and, bne_iff_ne]
      exact hne
    simp only [LogManager.openStream, hcond, if_true, and_self]
  cases hl : w.disk.list (Path.parent_path name) with
  | none =>
    obtain ⟨mgr2, hm⟩ := writeLog_ok env w.mgr.close "LogManager".toList .LL_ERROR
      ("Unexpected error flushing old logs: ".toList ++ what) id hid
    refine ⟨{ mgr := mgr2, disk := w.disk, openPath := none }, ?_, hopen _ rfl⟩
    simp only [LogManager.open, LogManager.tryRemoveOldLogs, hl, if_true, hm, hdate]
  | some entries =>
    obtain ⟨thrown, w1, h1, h2⟩ := removeOldLogs_ok env id hid entries
      { w with mgr := w.mgr.close, openPath := none }
    cases thrown with
    | false =>
      refine ⟨{ w1 with mgr := w1.mgr }, ?_, hopen _ h2⟩
      simp only [LogManager.open, LogManager.tryRemoveOldLogs, hl, h1, Bool.false_eq_true,
        if_false, hdate]
    | true =>
      obtain ⟨mgr2, hm⟩ := writeLog_ok env w1.mgr "LogManager".toList .LL_ERROR
        ("Unexpected error flushing old logs: ".toList ++ what) id hid
      refine ⟨{ w1 with mgr := mgr2 }, ?_, hopen _ h2⟩
      simp only [LogManager.open, LogManager.tryRemoveOldLogs, hl, h1, if_true, hm, hdate]

/-- C15, on the call `open("./STV-Logger")` of `main.cpp` at the sample clock. -/
theorem C15_open_names_the_file_by_base_path_and_stamp_witness :
    fileStamp sampleEnv.tm = "2024-03-05 07-08-09".toList ∧
    (fileStamp sampleEnv.tm).length = 19 ∧
    (LogManager.open sampleEnv "std::exception".toList "./STV-Logger".toList
        sampleWorld).toOption.map (fun w => w.openPath) =
      some (some "./STV-Logger-2024-03-05 07-08-09.log".toList) :=
  ⟨rfl,
    (C15_open_names_the_file_by_base_path_and_stamp sampleEnv "std::exception".toList
      "./STV-Logger".toList sampleWorld 140737 (by decide) rfl).1,
    rfl⟩

/-- C16: `open("X")` with a bare name removes nothing. The parent path of `X` is empty,
`directory_iterator` throws on it, the handler logs one ERROR line, and the `old.log` of
the current directory is still there next to the new file; a second `open("X")` one
second later leaves three `.log` files. With `./X` the old log is removed. -/
theorem C16_open_with_bare_name_removes_no_old_log :
    Path.parent_path "X".toList = [] ∧
    sampleDisk.list [] = none ∧
    LogManager.open sampleEnv "std::exception".toList "X".toList sampleWorld =
      .ok { mgr := { m_logLevel := .LL_DEBUG, m_logFile := some [],
                     console := composeLine "2024/03/05 07:08:09".toList "LogManag".toList
                       "000225C1".toList "ERROR   ".toList
                       "Unexpected error flushing old logs: std::exception".toList },
            disk := { dirs := [],
                      files := [([], "X-2024-03-05 07-08-09.log".toList),
                        ([], "old.log".toList), ([], "notes.txt".toList)],
                      locked := [] },
            openPath := some "X-2024-03-05 07-08-09.log".toList } ∧
    ((LogManager.open sampleEnv "std::exception".toList "X".toList sampleWorld).bind
        (fun w => LogManager.open laterEnv "std::exception".toList "X".toList w)).toOption.map
        (fun w => w.disk.files.filter Disk.isLog) =
      some [([], "X-2024-03-05 07-08-10.log".toList),
        ([], "X-2024-03-05 07-08-09.log".toList), ([], "old.log".toList)] ∧
    (LogManager.open sampleEnv "std::exception".toList "./X".toList sampleWorld).toOption.map
        (fun w => w.disk.files.filter Disk.isLog) =
      some [([], "X-2024-03-05 07-08-09.log".toList)] :=
  ⟨rfl, rfl, rfl, rfl, rfl⟩

/-- C18: on a template that ends inside a specifier, here `"abc%"`, the inner loop is left
with `ptr` on the terminating NUL, and once the error is logged and `format` has returned,
the nested call is made on `ptr + 1`: it runs on whatever bytes `junk` follow the NUL in
the array, and when none follow, its first read is past the array. -/
theorem C18_nested_call_after_cut_specifier_starts_past_the_NUL (vsn : Vsnprintf)
    (env : Env) (self : Logger) (a : Arg) (rest : List Arg) (junk : List Char)
    (mgr mgr1 : LogManager) (s : List Char)
    (hw : mgr.writeLog env self.m_name .LL_ERROR
      (Logger.invalidSpecifier ['%'] ("abc%".toList ++ NUL :: junk)) = .ok mgr1)
    (hf : Logger.formatValue vsn ['%'] a = .ok s) :
    Logger.scanSpecifier (NUL :: junk) ['%'] = .ok (['%'], true, NUL :: junk) ∧
    Logger.recurseLog vsn env self ("abc%".toList ++ NUL :: junk) (a :: rest) mgr =
      prepend ("abc".toList ++ s) (Logger.recurseLog vsn env self junk rest mgr1) ∧
    Logger.recurseLog vsn env self [] rest mgr1 = .error .outOfBounds := by
  refine ⟨rfl, ?_, ?_⟩
  · have hl : "abc%".toList ++ NUL :: junk = "abc".toList ++ ('%' :: NUL :: junk) := rfl
    have hlit : "abc".toList.all isLiteral = true := by decide
    have hp : ('%' : Char) ≠ NUL := by decide
    have hpp : (['%'] : List Char) ≠ ['%', '%'] := by decide
    rw [hl] at hw
    rw [recurseLog_cons, hl, recurseLogLoop_literal _ _ _ _ _ _ _ _ _ _ hlit]
    simp only [Logger.recurseLogLoop, Logger.scanSpecifier, hp, if_false, if_true, hw, hpp, hf,
      List.drop_succ_cons, List.drop_zero, prepend_append]
    cases Logger.recurseLog vsn env self junk rest mgr1 with
    | error e => rfl
    | ok v => rfl
  · cases rest with
    | nil => rfl
    | cons b bs => rfl

/-- C18, on `"abc%"` with the argument 1: with the array of the literal the call ends in
a read past the array; with the bytes of `"xyz"` after it they are rendered as if they
were template text. -/
theorem C18_nested_call_after_cut_specifier_starts_past_the_NUL_witness :
    Logger.recurseLog lenientPrintf sampleEnv sampleLogger (lit "abc%") [.prim (.int 1)]
        LogManager.init = .error .outOfBounds ∧
    (Logger.recurseLog lenientPrintf sampleEnv sampleLogger (lit "abc%" ++ lit "xyz")
        [.prim (.int 1)] LogManager.init).toOption.map (fun r => r.1) =
      some "abcxyz".toList :=
  ⟨(C18_nested_call_after_cut_specifier_starts_past_the_NUL lenientPrintf sampleEnv
      sampleLogger (.prim (.int 1)) [] [] LogManager.init _ [] rfl rfl).2.1,
    congrArg (fun r => (Except.toOption r).map (fun r => r.1))
      (C18_nested_call_after_cut_specifier_starts_past_the_NUL lenientPrintf sampleEnv
        sampleLogger (.prim (.int 1)) [] (lit "xyz") LogManager.init _ [] rfl rfl).2.1⟩

/-- C19: with the threshold INFO a call at DEBUG is not admitted, and `debug(format, ...)`
leaves the manager as it was; the overload `debug(file, line, format, ...)` behind
`verbose` runs `recurseLog` without asking, and on a template that ends inside a
specifier the console gets the ERROR line `invalid format specifier`. -/
theorem C19_verbose_logs_format_error_below_threshold :
    (LogManager.init.setLevel .LL_INFO).isLoggable .LL_DEBUG = false ∧
    Logger.debug lenientPrintf sampleEnv sampleLogger ("abc%".toList ++ [NUL, NUL])
        [.prim (.int 1)] (LogManager.init.setLevel .LL_INFO) =
      .ok (LogManager.init.setLevel .LL_INFO) ∧
    Logger.verbose lenientPrintf sampleEnv sampleLogger (lit "main.cpp") 9
        ("abc%".toList ++ [NUL, NUL]) (.prim (.int 1)) [] (LogManager.init.setLevel .LL_INFO) =
      .ok { m_logLevel := .LL_INFO, m_logFile := none,
            console := composeLine "2024/03/05 07:08:09".toList "MyClass ".toList
              "000225C1".toList "ERROR   ".toList
              (Logger.invalidSpecifier ['%'] (lit "abc%")) } :=
  ⟨rfl, rfl, rfl⟩

/-- C20: on a template that ends inside a specifier the nested call of `recurseLog` is
not made on a suffix of the template. For the template `%` the inner loop is left with
`ptr` on the NUL and the call goes to the bytes behind it: with `"%d%d"` there and the
arguments (1, 2, 3) the run takes four nested calls, more than the two a template of one
character allows, and renders `23` from bytes that are no part of the template; with
nothing there its first read is past the array. -/
theorem C20_nested_call_after_cut_specifier_leaves_the_template :
    c_str cutThenMore = "%".toList ∧
    Logger.scanSpecifier (NUL :: lit "%d%d") ['%'] = .ok (['%'], true, NUL :: lit "%d%d") ∧
    Logger.recurseLogFuel lenientPrintf sampleEnv sampleLogger ("%".toList.length + 1)
        cutThenMore [.prim (.int 1), .prim (.int 2), .prim (.int 3)] LogManager.init =
      .error .outOfFuel ∧
    (Logger.recurseLogFuel lenientPrintf sampleEnv sampleLogger 4 cutThenMore
        [.prim (.int 1), .prim (.int 2), .prim (.int 3)] LogManager.init).toOption.map
        (fun r => r.1) = some "23".toList ∧
    Logger.recurseLog lenientPrintf sampleEnv sampleLogger (lit "%")
        [.prim (.int 1), .prim (.int 2), .prim (.int 3)] LogManager.init =
      .error .outOfBounds :=
  ⟨rfl, rfl, rfl, rfl, rfl⟩

end STVLogger
